import Mathlib

/-!
# A shallow embedding of `src/App.jsx`

The page is a React component tree over static content.  The parts with
behaviour of their own are embedded here as Lean functions:

* `resolveAssetUrl` (lines 4-14),
* `Carousel` (lines 81-130): filtered image list, clamped index, the two
  navigation handlers,
* `ActivityCard` (lines 132-223): the expand/collapse eligibility and state,
* `ScheduleTable` (lines 225-282): the list guards and `renderDayCells`,
* `LessonPlans` (lines 403-445).

Content comes from a data file and is not validated, so fields are JavaScript
values (`JSValue`); the code's own checks (`typeof`, `Array.isArray`,
truthiness) are embedded as functions on them.
-/

set_option autoImplicit false

namespace App

/-! ## JavaScript values -/

/-- A JavaScript string, as its sequence of code units; one `Char` stands for one
code unit, so `List.length` is the `.length` of the string. -/
abbrev JSString := List Char

/-- A JavaScript number.  The finite ones are rationals (every finite double is one),
next to `NaN` and the two infinities. -/
inductive JSNum where
  | finite (q : ℚ)
  | nan
  | posInf
  | negInf

/-- A JavaScript value as found in content data: primitives, arrays and plain objects.
An object is its table of own properties. -/
inductive JSValue where
  | undefined
  | null
  | bool (b : Bool)
  | num (x : JSNum)
  | str (s : JSString)
  | arr (items : List JSValue)
  | obj (fields : List (String × JSValue))

/-- Truthiness of a number: everything but `0` and `NaN`. -/
def JSNum.truthy : JSNum → Bool
  | .finite q => decide (q ≠ 0)
  | .nan => false
  | .posInf => true
  | .negInf => true

/-- Truthiness (`ToBoolean`), as used by `!x`, `x ? a : b`, `x || y` and
`filter(Boolean)`. -/
def JSValue.truthy : JSValue → Bool
  | .undefined => false
  | .null => false
  | .bool b => b
  | .num x => x.truthy
  | .str s => !s.isEmpty
  | .arr _ => true
  | .obj _ => true

/-- Own-property lookup in a property table; a missing property reads `undefined`. -/
def lookupField : List (String × JSValue) → String → JSValue
  | [], _ => .undefined
  | (k, v) :: rest, name => if k = name then v else lookupField rest name

/-- The property read `v.name` for a `v` that is not `null`/`undefined`, and the optional
read `v?.name` for every `v`.  The names read in this file (`span`, `code`, `room`,
`subjects`, `periods`, `days`, `schedule`, `lessonPlans`) are defined on no built-in
prototype, so a value other than an object reads `undefined`. -/
def JSValue.get (v : JSValue) (name : String) : JSValue :=
  match v with
  | .obj fields => lookupField fields name
  | _ => .undefined

/-- The operator `a > b` on two numbers. -/
def JSNum.gt : JSNum → JSNum → Bool
  | .nan, _ => false
  | _, .nan => false
  | .finite a, .finite b => decide (b < a)
  | .finite _, .negInf => true
  | .finite _, .posInf => false
  | .posInf, .posInf => false
  | .posInf, _ => true
  | .negInf, _ => false

/-- The test `Number.isFinite(x)` on a number. -/
def Number.isFinite : JSNum → Bool
  | .finite _ => true
  | _ => false

/-- The function `Math.floor` on a number. -/
def Math.floor : JSNum → JSNum
  | .finite q => .finite (⌊q⌋ : ℤ)
  | x => x

/-- The integer a number denotes when it is in a position that needs one (a column
count, an index step); on the numbers `spanExpr` yields nothing is lost, see
`spanExpr_eq_effectiveSpan`. -/
def JSNum.toInt : JSNum → ℤ
  | .finite q => ⌊q⌋
  | _ => 0

/-- The test `Array.isArray(v) ? v : []`, as a list. -/
def arrayOrEmpty : JSValue → List JSValue
  | .arr items => items
  | _ => []

/-! ## The schedule table: `renderDayCells` (lines 231-282) -/

/-- An entry of `periods`: an object, of which `renderDayCells` reads `key` and
`isBreak`. -/
structure Period where
  key : JSValue
  isBreak : JSValue

/-- A `<td>` pushed by `renderDayCells`. -/
inductive Td where
  /-- Lines 238-243: the muted cell of a break period, no `colSpan`. -/
  | breakCell (key : JSValue)
  /-- Lines 249-254: the blank cell of a period with no entry, no `colSpan`. -/
  | emptyCell (key : JSValue)
  /-- Lines 263-274: a subject cell with `colSpan={span}`, showing code and room. -/
  | subject (key : JSValue) (colSpan : ℤ) (code room : JSValue)

/-- The number of columns a `<td>` occupies: its `colSpan`, 1 when it has none. -/
def Td.width : Td → ℤ
  | .breakCell _ => 1
  | .emptyCell _ => 1
  | .subject _ colSpan _ _ => colSpan

/-- Lines 258-261, the value bound to `span`:
`typeof cell.span === 'number' && Number.isFinite(cell.span) && cell.span > 1
   ? Math.floor(cell.span) : 1`. -/
def spanExpr (cell : JSValue) : JSNum :=
  match cell.get "span" with
  | .num x => if Number.isFinite x && x.gt (.finite 1) then Math.floor x else .finite 1
  | _ => .finite 1

/-- The effective span of a cell, as the integer used for `colSpan` and for the step of
the loop index. -/
def effectiveSpan (cell : JSValue) : ℤ := (spanExpr cell).toInt

/-- The loop of `renderDayCells` (lines 234-279), with its state explicit: the index
`i` and the array `tds`.  `grid dayKey k` is the value of
`schedule?.grid?.[dayKey]?.[k]`.  The result is `tds` and the index at loop exit,
counted exactly; the index as the JavaScript number of the source is in `renderLoopNum`,
which pushes the same cells (`renderLoopNum_eq`).  Each iteration uses one unit of fuel;
`none` means the fuel ran out with the loop condition still true. -/
def renderLoop (periods : List Period) (grid : JSValue → JSValue → JSValue)
    (dayKey : JSValue) : Nat → Nat → List Td → Option (List Td × Nat)
  | 0, i, tds => if i < periods.length then none else some (tds, i)
  | fuel + 1, i, tds =>
    match periods[i]? with
    | none => some (tds, i)
    | some p =>
      if p.isBreak.truthy then
        renderLoop periods grid dayKey fuel (i + 1) (tds ++ [Td.breakCell p.key])
      else
        let cell := grid dayKey p.key
        if !cell.truthy then
          renderLoop periods grid dayKey fuel (i + 1) (tds ++ [Td.emptyCell p.key])
        else
          let span := effectiveSpan cell
          let tds := tds ++ [Td.subject p.key span (cell.get "code") (cell.get "room")]
          let i := if span > 1 then i + (span - 1).toNat else i
          renderLoop periods grid dayKey fuel (i + 1) tds

/-- The function `renderDayCells(dayKey)`: the loop from `i = 0` and `tds = []`.  Every
iteration advances `i`, so `periods.length` iterations are enough
(`renderLoop_eq`). -/
def renderDayCells (periods : List Period) (grid : JSValue → JSValue → JSValue)
    (dayKey : JSValue) : Option (List Td) :=
  (renderLoop periods grid dayKey periods.length 0 []).map Prod.fst

/-- The total width of a row of cells. -/
def rowWidth (tds : List Td) : ℤ := (tds.map Td.width).sum

/-- The `<td>` one iteration of the loop pushes for period `p`. -/
def cellOf (grid : JSValue → JSValue → JSValue) (dayKey : JSValue) (p : Period) : Td :=
  if p.isBreak.truthy then Td.breakCell p.key
  else if !(grid dayKey p.key).truthy then Td.emptyCell p.key
  else Td.subject p.key (effectiveSpan (grid dayKey p.key))
    ((grid dayKey p.key).get "code") ((grid dayKey p.key).get "room")

/-- The distance the loop index moves in the iteration for period `p`. -/
def strideOf (grid : JSValue → JSValue → JSValue) (dayKey : JSValue) (p : Period) : Nat :=
  (cellOf grid dayKey p).width.toNat

/-- The iterations of the loop started at index `i`: each index at which the body
runs, with the period found there. -/
def visitedFrom (periods : List Period) (grid : JSValue → JSValue → JSValue)
    (dayKey : JSValue) : Nat → Nat → List (Nat × Period)
  | 0, _ => []
  | fuel + 1, i =>
    match periods[i]? with
    | none => []
    | some p => (i, p) :: visitedFrom periods grid dayKey fuel (i + strideOf grid dayKey p)

/-- The iterations of `renderDayCells(dayKey)`. -/
def visited (periods : List Period) (grid : JSValue → JSValue → JSValue)
    (dayKey : JSValue) : List (Nat × Period) :=
  visitedFrom periods grid dayKey periods.length 0

/-- The caller obligation on spans: every Cell the scan reaches at an index `i` has an
effective span `s` with `i + s ≤ periods.length`. -/
def SpansInBounds (periods : List Period) (grid : JSValue → JSValue → JSValue)
    (dayKey : JSValue) : Prop :=
  ∀ x ∈ visited periods grid dayKey, x.2.isBreak.truthy = false →
    (grid dayKey x.2.key).truthy = true →
    (x.1 : ℤ) + effectiveSpan (grid dayKey x.2.key) ≤ periods.length

instance (periods : List Period) (grid : JSValue → JSValue → JSValue) (dayKey : JSValue) :
    Decidable (SpansInBounds periods grid dayKey) := by
  unfold SpansInBounds
  infer_instance

/-! ### Sample schedules -/

/-- A period object `{ key, isBreak }`. -/
def period (key : String) (isBreak : Bool) : Period :=
  ⟨JSValue.str key.toList, JSValue.bool isBreak⟩

/-- A grid entry `{ code, room, span }`. -/
def subjectCell (code room : String) (span : ℚ) : JSValue :=
  JSValue.obj [("code", JSValue.str code.toList), ("room", JSValue.str room.toList),
    ("span", JSValue.num (JSNum.finite span))]

/-- The periods `[P1, BREAK, P2, P3]`. -/
def scenarioPeriods : List Period :=
  [period "P1" false, period "BREAK" true, period "P2" false, period "P3" false]

/-- A grid whose day `mon` holds a span-2 Cell at `P2`, and a Cell of its own at `P3`. -/
def scenarioGrid : JSValue → JSValue → JSValue
  | JSValue.str ['m', 'o', 'n'], JSValue.str ['P', '2'] => subjectCell "30204" "Lab 2" 2
  | JSValue.str ['m', 'o', 'n'], JSValue.str ['P', '3'] => subjectCell "30001" "Room 7" 1
  | _, _ => JSValue.undefined

/-- The day key `mon`. -/
def mon : JSValue := JSValue.str ['m', 'o', 'n']

/-- A grid holding a span-3 Cell under every key. -/
def overrunGrid : JSValue → JSValue → JSValue :=
  fun _ _ => subjectCell "30204" "Lab 2" 3

/-! ## Asset URLs: `resolveAssetUrl` (lines 4-14) -/

/-- What a URL-valued content field holds: a string, or nothing (`undefined`, `null`). -/
inductive UrlField where
  | undefined
  | null
  | str (s : JSString)
  deriving DecidableEq

/-- Truthiness of a `UrlField`: only a non-empty string is truthy. -/
def UrlField.truthy : UrlField → Bool
  | .undefined => false
  | .null => false
  | .str s => !s.isEmpty

/-- Line 4: `import.meta.env.BASE_URL || '/'`, from the configured value. -/
def BASE_URL (configured : UrlField) : JSString :=
  match configured with
  | .str s => if (UrlField.str s).truthy then s else ['/']
  | _ => ['/']

/-- `s` starts with `pat` when letters are compared without case, as under the regex flag
`i` (`pat` is in lower case); the result is the rest of `s`. -/
def dropHeadIgnoreCase : JSString → JSString → Option JSString
  | [], s => some s
  | _ :: _, [] => none
  | a :: pat, c :: s => if c.toLower = a then dropHeadIgnoreCase pat s else none

/-- The method `s.startsWith(pat)`. -/
def startsWith (s pat : JSString) : Bool := pat.isPrefixOf s

/-- The method `s.endsWith(pat)`. -/
def endsWith (s pat : JSString) : Bool := pat.isSuffixOf s

/-- Line 8: the test of `/^(https?:)?\/\//i`: at the start of `s`, an optional `http:` or
`https:` in any letter case, then `//`. -/
def matchesUrlPattern (s : JSString) : Bool :=
  (match dropHeadIgnoreCase ['h', 't', 't', 'p', 's', ':'] s with
    | some rest => startsWith rest ['/', '/']
    | none => false) ||
  (match dropHeadIgnoreCase ['h', 't', 't', 'p', ':'] s with
    | some rest => startsWith rest ['/', '/']
    | none => false) ||
  startsWith s ['/', '/']

/-- The function `resolveAssetUrl(url)` under a configured base path. -/
def resolveAssetUrl (configured : UrlField) (url : UrlField) : UrlField :=
  if !url.truthy then url
  else
    match url with
    | .str s =>
      if matchesUrlPattern s then url
      else if startsWith s ['d', 'a', 't', 'a', ':'] || startsWith s ['b', 'l', 'o', 'b', ':'] then url
      else
        let base :=
          if endsWith (BASE_URL configured) ['/'] then BASE_URL configured
          else BASE_URL configured ++ ['/']
        if startsWith s ['/'] then UrlField.str (base ++ s.drop 1)
        else UrlField.str (base ++ s)
    | _ => url

/-- The reading of "an absolute HTTP(S) URL": the text starts with `http://` or `https://`,
in any letter case. -/
def isAbsoluteHttpUrl (s : JSString) : Bool :=
  (dropHeadIgnoreCase ['h', 't', 't', 'p', ':', '/', '/'] s).isSome ||
    (dropHeadIgnoreCase ['h', 't', 't', 'p', 's', ':', '/', '/'] s).isSome

/-- The reading of "the base path normalised to end with exactly one `/`": its trailing
`/`s removed and one `/` put back. -/
def specNormalizeBase (base : JSString) : JSString :=
  (base.reverse.dropWhile (fun c => c = '/')).reverse ++ ['/']

/-- The reading of "the input with its leading `/` (if any) removed". -/
def specStripLeading : JSString → JSString
  | '/' :: rest => rest
  | s => s

/-- The resolution of a relative input as the specification words it. -/
def specResolve (base s : JSString) : JSString :=
  specNormalizeBase base ++ specStripLeading s

/-! ## The image carousel: `Carousel` (lines 81-130) -/

/-- Line 82: `Array.isArray(images) ? images.filter(Boolean) : []`. -/
def safeImages (images : JSValue) : List JSValue :=
  match images with
  | .arr items => items.filter JSValue.truthy
  | _ => []

/-- The element read `xs[k]` for an integer `k`: `undefined` outside `0 .. length - 1`. -/
def elemAt (xs : List JSValue) (k : ℤ) : JSValue :=
  if 0 ≤ k then xs.getD k.toNat JSValue.undefined else JSValue.undefined

/-- The outcome of lines 82-94 of `Carousel`. -/
inductive CarouselView where
  /-- Lines 85-91: the placeholder box, with no image and no button. -/
  | placeholder
  /-- Lines 96-129: the image `current`; `controls` tells whether the two navigation
  buttons are rendered (`canNavigate`). -/
  | slide (current : JSValue) (controls : Bool)

/-- What `Carousel` decides ahead of its JSX (lines 82-94), for the property `images` and
the state `index`: the placeholder, or the entry shown and `canNavigate`.  The whole render,
with the image source of line 101, is `Carousel.render`. -/
def Carousel (images : JSValue) (index : ℤ) : CarouselView :=
  let safe := safeImages images
  if safe.length = 0 then CarouselView.placeholder
  else
    let current := elemAt safe (min index ((safe.length : ℤ) - 1))
    let canNavigate := decide (safe.length > 1)
    CarouselView.slide current canNavigate

/-- Line 112, the update of the backward button: `(i - 1 + count) % count`, with the
remainder of JavaScript (sign of the dividend). -/
def prevIndex (count i : ℤ) : ℤ := Int.tmod (i - 1 + count) count

/-- Line 120, the update of the forward button: `(i + 1) % count`. -/
def nextIndex (count i : ℤ) : ℤ := Int.tmod (i + 1) count

/-- The two navigation buttons. -/
inductive NavButton where
  | backward
  | forward

/-- The state after a click: the update of the button when the render has the buttons;
a render without buttons offers nothing to click, and the state stays. -/
def Carousel.click (images : JSValue) (index : ℤ) (button : NavButton) : ℤ :=
  match Carousel images index with
  | CarouselView.slide _ true =>
    match button with
    | NavButton.backward => prevIndex (safeImages images).length index
    | NavButton.forward => nextIndex (safeImages images).length index
  | _ => index

/-- The state of a carousel after a series of clicks, from `useState(0)`. -/
def Carousel.indexAfter (images : JSValue) (clicks : List NavButton) : ℤ :=
  clicks.foldl (Carousel.click images) 0

/-! ## The activity card: `ActivityCard` (lines 132-223) -/

/-- An entry of `activities`: an object, with the fields the card tests. -/
structure Activity where
  description : JSValue
  highlights : JSValue
  images : JSValue

/-- Lines 134-135: `typeof description === 'string' && description.length > 220`. -/
def hasLongDescription (activity : Activity) : Bool :=
  match activity.description with
  | .str s => decide (s.length > 220)
  | _ => false

/-- Line 136: `Array.isArray(highlights) && highlights.length > 0`. -/
def hasHighlights (activity : Activity) : Bool :=
  match activity.highlights with
  | .arr items => decide (items.length > 0)
  | _ => false

/-- Line 137. -/
def canExpand (activity : Activity) : Bool :=
  hasLongDescription activity || hasHighlights activity

/-- What `ActivityCard` renders, as far as it depends on the state `expanded`. -/
structure ActivityCardView where
  /-- Lines 143-145: the tall scrolling panel (`true`) or the clipped one (`false`). -/
  panelExpanded : Bool
  /-- Lines 170-182: the highlights listed in the panel. -/
  highlightsShown : List JSValue
  /-- Lines 184-186: the fade at the bottom of the clipped panel. -/
  fade : Bool
  /-- Lines 189-209: the expand/collapse button. -/
  toggle : Bool
  /-- Line 217: the image count below the carousel. -/
  imageCount : Nat

/-- The render of `ActivityCard` for an activity and the state `expanded`. -/
def ActivityCard (activity : Activity) (expanded : Bool) : ActivityCardView where
  panelExpanded := expanded
  highlightsShown :=
    if expanded && hasHighlights activity then arrayOrEmpty activity.highlights else []
  fade := !expanded
  toggle := canExpand activity
  imageCount := (arrayOrEmpty activity.images).length

/-- The state after a click: line 193 flips it when the button is rendered; a card without
the button offers nothing to click. -/
def ActivityCard.click (activity : Activity) (expanded : Bool) : Bool :=
  if (ActivityCard activity expanded).toggle then !expanded else expanded

/-- The state of a card after `n` clicks, from `useState(false)`. -/
def ActivityCard.expandedAfter (activity : Activity) (n : Nat) : Bool :=
  (ActivityCard.click activity)^[n] false

/-! ## List guards: `ScheduleTable` (lines 226-229) and `LessonPlans` (lines 403-445) -/

/-- The exception a render can raise. -/
inductive JSError where
  /-- `TypeError`: a property read on `undefined`/`null`, or a call of what is no function. -/
  | typeError
  deriving DecidableEq

/-- Lines 227-229: the three lists `ScheduleTable` iterates. -/
structure ScheduleLists where
  subjects : List JSValue
  periods : List JSValue
  days : List JSValue

/-- Lines 227-229: `Array.isArray(schedule?.f) ? schedule.f : []` for `subjects`, `periods`
and `days`. -/
def scheduleLists (schedule : JSValue) : ScheduleLists where
  subjects := arrayOrEmpty (schedule.get "subjects")
  periods := arrayOrEmpty (schedule.get "periods")
  days := arrayOrEmpty (schedule.get "days")

/-- Lines 403-445: `LessonPlans({ plans })` is `plans.map(card)` inside a `<div>`, with no
test of `plans`: for an array the cards of its items, in order; for anything else the call
`plans.map(...)` raises a `TypeError`.  `card` is the render of one item. -/
def LessonPlans {β : Type} (card : JSValue → Except JSError β) (plans : JSValue) :
    Except JSError (List β) :=
  match plans with
  | .arr items => items.mapM card
  | _ => Except.error JSError.typeError

/-- A semester record with `key`, `label` and `schedule`, and no `lessonPlans`. -/
def semesterWithoutPlans : JSValue :=
  JSValue.obj [("key", JSValue.str "1/2568".toList), ("label", JSValue.str "1/2568".toList),
    ("schedule", JSValue.obj [])]

/-- An `images` array with a `null` and an empty entry among three image paths. -/
def sampleImages : JSValue :=
  JSValue.arr [JSValue.str "a.jpg".toList, JSValue.null, JSValue.str "b.jpg".toList,
    JSValue.str [], JSValue.str "c.jpg".toList]

/-- A grid whose day `mon` holds a span-3 Cell under the key of the break period. -/
def breakGrid : JSValue → JSValue → JSValue
  | JSValue.str ['m', 'o', 'n'], JSValue.str ['B', 'R', 'E', 'A', 'K'] =>
    subjectCell "30204" "Lab 2" 3
  | _, _ => JSValue.undefined

/-! ### The loop index of `renderDayCells` as a JavaScript number -/

/-- The number of low bits of `n` that do not fit the 53 significant bits of a double: the
least `e` with `n / 2 ^ e < 2 ^ 53`, found by halving (`fuel` bounds the halvings). -/
def excessBits : Nat → Nat → Nat
  | 0, _ => 0
  | fuel + 1, n => if n < 2 ^ 53 then 0 else excessBits fuel (n / 2) + 1

/-- The double nearest to the non-negative integer `n`, ties to the even significand
(IEEE 754 round-to-nearest-even); below the overflow threshold of doubles, where every
index and span of the loop lies. -/
def roundToDouble (n : Nat) : Nat :=
  let e := excessBits n n
  let q := n / 2 ^ e
  let r := n % 2 ^ e
  if 2 * r > 2 ^ e ∨ (2 * r = 2 ^ e ∧ q % 2 = 1) then (q + 1) * 2 ^ e else q * 2 ^ e

/-- The operator `a + b` on two numbers holding non-negative integers. -/
def numAdd (a b : Nat) : Nat := roundToDouble (a + b)

/-- The loop of `renderDayCells` (lines 234-279) with the index `i` as the JavaScript
number it is: `i += span - 1` and `i += 1` round their results to a double.  The cells
pushed are those of `renderLoop`; the index at loop exit differs once it passes `2 ^ 53`. -/
def renderLoopNum (periods : List Period) (grid : JSValue → JSValue → JSValue)
    (dayKey : JSValue) : Nat → Nat → List Td → Option (List Td × Nat)
  | 0, i, tds => if i < periods.length then none else some (tds, i)
  | fuel + 1, i, tds =>
    match periods[i]? with
    | none => some (tds, i)
    | some p =>
      if p.isBreak.truthy then
        renderLoopNum periods grid dayKey fuel (numAdd i 1) (tds ++ [Td.breakCell p.key])
      else
        let cell := grid dayKey p.key
        if !cell.truthy then
          renderLoopNum periods grid dayKey fuel (numAdd i 1) (tds ++ [Td.emptyCell p.key])
        else
          let span := effectiveSpan cell
          let tds := tds ++ [Td.subject p.key span (cell.get "code") (cell.get "room")]
          let i := if span > 1 then numAdd i (roundToDouble (span - 1).toNat) else i
          renderLoopNum periods grid dayKey fuel (numAdd i 1) tds

/-- The index after the iteration at index `i` with stride `s`, in double arithmetic. -/
def advanceNum (i s : Nat) : Nat :=
  numAdd (if s > 1 then numAdd i (roundToDouble (s - 1)) else i) 1

/-- A grid holding a Cell of span `2 ^ 53` under the key `P2`. -/
def hugeGrid : JSValue → JSValue → JSValue
  | _, JSValue.str ['P', '2'] => subjectCell "30204" "Lab 2" 9007199254740992
  | _, _ => JSValue.undefined

/-! ### The whole render of `Carousel`, with the image source (line 101) -/

/-- Line 8 on a value that is no string: `test` converts it to text first.  The text of an
array is the texts of its items joined by `,` (the empty text for an `undefined` or `null`
item), so, the pattern having no `,`, it matches exactly when the text of the first item
does; the text of a number (it begins with a digit, `-`, `I` or `N`), of a boolean and of
a plain object (`[object Object]`) does not match. -/
def textMatchesUrlPattern : JSValue → Bool
  | .str s => matchesUrlPattern s
  | .arr (first :: _) => textMatchesUrlPattern first
  | _ => false

/-- A `UrlField` as a value. -/
def UrlField.toValue : UrlField → JSValue
  | .undefined => JSValue.undefined
  | .null => JSValue.null
  | .str s => JSValue.str s

/-- The function `resolveAssetUrl(url)` on any content value: a falsy value comes back at
line 7; a string goes through `resolveAssetUrl`; another value comes back at line 8 when
its text matches the pattern, and otherwise line 9 calls `url.startsWith`, which is no
function on it, raising a `TypeError`. -/
def resolveAssetUrlAny (configured : UrlField) (url : JSValue) : Except JSError JSValue :=
  if !url.truthy then Except.ok url
  else
    match url with
    | .str s => Except.ok (resolveAssetUrl configured (UrlField.str s)).toValue
    | _ =>
      if textMatchesUrlPattern url then Except.ok url
      else Except.error JSError.typeError

/-- What `Carousel` renders. -/
inductive CarouselRender where
  /-- Lines 85-91: the placeholder box, with no image and no button. -/
  | placeholder
  /-- Lines 96-129: the `<img>` with `key={current}` and `src`; `controls` tells whether the
  two navigation buttons are rendered. -/
  | slide (current : JSValue) (src : JSValue) (controls : Bool)

/-- The render of `Carousel` (lines 82-129) for the property `images` and the state `index`,
under a configured base path. -/
def Carousel.render (configured : UrlField) (images : JSValue) (index : ℤ) :
    Except JSError CarouselRender :=
  let safe := safeImages images
  if safe.length = 0 then Except.ok CarouselRender.placeholder
  else
    let current := elemAt safe (min index ((safe.length : ℤ) - 1))
    let canNavigate := decide (safe.length > 1)
    match resolveAssetUrlAny configured current with
    | Except.ok src => Except.ok (CarouselRender.slide current src canNavigate)
    | Except.error e => Except.error e

/-- The state of a carousel after a series of clicks, from `useState(0)`, each click under
the `images` property of its time: the state outlives a change of the property. -/
def Carousel.indexThrough (history : List (JSValue × NavButton)) : ℤ :=
  history.foldl (fun i step => Carousel.click step.1 i step.2) 0

/-- An `images` array of two image paths. -/
def shortImages : JSValue :=
  JSValue.arr [JSValue.str "a.jpg".toList, JSValue.str "b.jpg".toList]

/-! ## Theorems: the effective span and the loop of renderDayCells -/

theorem spanExpr_finite (cell : JSValue) : ∃ k : ℤ, 1 ≤ k ∧ spanExpr cell = JSNum.finite k := by
  unfold spanExpr
  split
  · rename_i x _
    cases x with
    | finite q =>
      by_cases h : (1 : ℚ) < q
      · refine ⟨⌊q⌋, ?_, ?_⟩
        · exact Int.le_floor.mpr (by exact_mod_cast h.le)
        · simp [Number.isFinite, JSNum.gt, Math.floor, h]
      · exact ⟨1, le_refl _, by simp [Number.isFinite, JSNum.gt, h]⟩
    | nan => exact ⟨1, le_refl _, by simp [Number.isFinite]⟩
    | posInf => exact ⟨1, le_refl _, by simp [Number.isFinite]⟩
    | negInf => exact ⟨1, le_refl _, by simp [Number.isFinite]⟩
  · exact ⟨1, le_refl _, by simp⟩

theorem spanExpr_eq_effectiveSpan (cell : JSValue) :
    spanExpr cell = JSNum.finite (effectiveSpan cell) := by
  obtain ⟨k, _, hk⟩ := spanExpr_finite cell
  simp [effectiveSpan, hk, JSNum.toInt]

theorem effectiveSpan_pos (cell : JSValue) : 1 ≤ effectiveSpan cell := by
  obtain ⟨k, hk1, hk⟩ := spanExpr_finite cell
  simpa [effectiveSpan, hk, JSNum.toInt] using hk1

theorem width_cellOf_pos (grid : JSValue → JSValue → JSValue) (dayKey : JSValue)
    (p : Period) : 1 ≤ (cellOf grid dayKey p).width := by
  unfold cellOf
  split_ifs
  · simp [Td.width]
  · simp [Td.width]
  · simpa [Td.width] using effectiveSpan_pos _

theorem strideOf_pos (grid : JSValue → JSValue → JSValue) (dayKey : JSValue)
    (p : Period) : 1 ≤ strideOf grid dayKey p := by
  have := width_cellOf_pos grid dayKey p
  unfold strideOf
  omega

theorem strideOf_cast (grid : JSValue → JSValue → JSValue) (dayKey : JSValue)
    (p : Period) : ((strideOf grid dayKey p : Nat) : ℤ) = (cellOf grid dayKey p).width := by
  have := width_cellOf_pos grid dayKey p
  unfold strideOf
  omega

theorem renderLoop_succ (periods : List Period) (grid : JSValue → JSValue → JSValue)
    (dayKey : JSValue) (fuel i : Nat) (tds : List Td) :
    renderLoop periods grid dayKey (fuel + 1) i tds =
      match periods[i]? with
      | none => some (tds, i)
      | some p => renderLoop periods grid dayKey fuel (i + strideOf grid dayKey p)
          (tds ++ [cellOf grid dayKey p]) := by
  rw [renderLoop]
  cases hp : periods[i]? with
  | none => rfl
  | some p =>
    simp only
    have hs := effectiveSpan_pos (grid dayKey p.key)
    by_cases hb : p.isBreak.truthy = true
    · simp [hb, strideOf, cellOf, Td.width]
    · by_cases hc : (grid dayKey p.key).truthy = true
      · simp only [hb, hc, strideOf, cellOf, Td.width]
        simp only [Bool.false_eq_true, if_false, Bool.not_true]
        by_cases h1 : effectiveSpan (grid dayKey p.key) > 1
        · simp only [h1, if_true]
          congr 1
          omega
        · simp only [h1, if_false]
          congr 1
          omega
      · simp [hb, hc, strideOf, cellOf, Td.width]

/-- The result of the loop, in closed form: the cells of the iterations appended to `tds`,
and the start index moved by the strides of the iterations. -/
theorem renderLoop_eq (periods : List Period) (grid : JSValue → JSValue → JSValue)
    (dayKey : JSValue) (fuel : Nat) : ∀ (i : Nat) (tds : List Td),
    periods.length ≤ i + fuel →
    renderLoop periods grid dayKey fuel i tds =
      some (tds ++ (visitedFrom periods grid dayKey fuel i).map (fun x => cellOf grid dayKey x.2),
        i + ((visitedFrom periods grid dayKey fuel i).map
          (fun x => strideOf grid dayKey x.2)).sum) := by
  induction fuel with
  | zero =>
    intro i tds h
    have : ¬ i < periods.length := by omega
    simp [renderLoop, visitedFrom, this]
  | succ fuel ih =>
    intro i tds h
    rw [renderLoop_succ]
    cases hp : periods[i]? with
    | none => simp [visitedFrom, hp]
    | some p =>
      have hs := strideOf_pos grid dayKey p
      simp only [visitedFrom, hp]
      rw [ih _ _ (by omega)]
      simp [Nat.add_assoc]

theorem visitedFrom_lookup (periods : List Period) (grid : JSValue → JSValue → JSValue)
    (dayKey : JSValue) (fuel : Nat) : ∀ (i : Nat) (x : Nat × Period),
    x ∈ visitedFrom periods grid dayKey fuel i → i ≤ x.1 ∧ periods[x.1]? = some x.2 := by
  induction fuel with
  | zero => intro i x hx; simp [visitedFrom] at hx
  | succ fuel ih =>
    intro i x hx
    cases hp : periods[i]? with
    | none => simp [visitedFrom, hp] at hx
    | some p =>
      simp only [visitedFrom, hp, List.mem_cons] at hx
      rcases hx with rfl | hx
      · exact ⟨le_refl _, hp⟩
      · have := ih _ _ hx
        exact ⟨by omega, this.2⟩

/-- Successive iterations are apart by the stride of the earlier one, or more. -/
theorem visitedFrom_pairwise (periods : List Period) (grid : JSValue → JSValue → JSValue)
    (dayKey : JSValue) (fuel : Nat) : ∀ (i : Nat),
    (visitedFrom periods grid dayKey fuel i).Pairwise
      (fun a b => a.1 + strideOf grid dayKey a.2 ≤ b.1) := by
  induction fuel with
  | zero => intro i; simp [visitedFrom]
  | succ fuel ih =>
    intro i
    cases hp : periods[i]? with
    | none => simp [visitedFrom, hp]
    | some p =>
      simp only [visitedFrom, hp, List.pairwise_cons]
      exact ⟨fun b hb => (visitedFrom_lookup periods grid dayKey fuel _ b hb).1, ih _⟩

/-- The index at loop exit is the number of periods exactly when every iteration ends
within the period list. -/
theorem exit_eq_length_iff (periods : List Period) (grid : JSValue → JSValue → JSValue)
    (dayKey : JSValue) (fuel : Nat) : ∀ (i : Nat),
    periods.length ≤ i + fuel → i ≤ periods.length →
    ((∀ x ∈ visitedFrom periods grid dayKey fuel i,
        x.1 + strideOf grid dayKey x.2 ≤ periods.length) ↔
      i + ((visitedFrom periods grid dayKey fuel i).map
          (fun x => strideOf grid dayKey x.2)).sum = periods.length) := by
  induction fuel with
  | zero =>
    intro i h1 h2
    simp [visitedFrom]
    omega
  | succ fuel ih =>
    intro i h1 h2
    cases hp : periods[i]? with
    | none =>
      have : periods.length ≤ i := by simpa using hp
      simp [visitedFrom, hp]
      omega
    | some p =>
      have hs := strideOf_pos grid dayKey p
      simp only [visitedFrom, hp, List.forall_mem_cons, List.map_cons, List.sum_cons]
      constructor
      · rintro ⟨hhead, htail⟩
        have := (ih (i + strideOf grid dayKey p) (by omega) hhead).mp htail
        omega
      · intro hsum
        have hle : i + strideOf grid dayKey p ≤ periods.length := by omega
        exact ⟨hle, (ih (i + strideOf grid dayKey p) (by omega) hle).mpr (by omega)⟩

/-- The index at loop exit is never short of the number of periods. -/
theorem length_le_exit (periods : List Period) (grid : JSValue → JSValue → JSValue)
    (dayKey : JSValue) (fuel : Nat) : ∀ (i : Nat),
    periods.length ≤ i + fuel →
    periods.length ≤ i + ((visitedFrom periods grid dayKey fuel i).map
          (fun x => strideOf grid dayKey x.2)).sum := by
  induction fuel with
  | zero => intro i h; simpa [visitedFrom] using h
  | succ fuel ih =>
    intro i h
    cases hp : periods[i]? with
    | none =>
      have : periods.length ≤ i := by simpa using hp
      simp [visitedFrom, hp]
      omega
    | some p =>
      have hs := strideOf_pos grid dayKey p
      simp only [visitedFrom, hp, List.map_cons, List.sum_cons]
      have := ih (i + strideOf grid dayKey p) (by omega)
      omega

theorem rowWidth_map_cellOf (grid : JSValue → JSValue → JSValue) (dayKey : JSValue)
    (l : List (Nat × Period)) :
    rowWidth (l.map (fun x => cellOf grid dayKey x.2)) =
      ((l.map (fun x => strideOf grid dayKey x.2)).sum : Nat) := by
  induction l with
  | nil => simp [rowWidth]
  | cons a l ih =>
    simp only [rowWidth, List.map_cons, List.sum_cons, List.map_map] at ih ⊢
    rw [ih]
    push_cast
    rw [strideOf_cast]

theorem visited_lookup (periods : List Period) (grid : JSValue → JSValue → JSValue)
    (dayKey : JSValue) (x : Nat × Period) (hx : x ∈ visited periods grid dayKey) :
    periods[x.1]? = some x.2 :=
  (visitedFrom_lookup periods grid dayKey _ 0 x hx).2

theorem spansInBounds_iff (periods : List Period) (grid : JSValue → JSValue → JSValue)
    (dayKey : JSValue) :
    SpansInBounds periods grid dayKey ↔
      ∀ x ∈ visited periods grid dayKey, x.1 + strideOf grid dayKey x.2 ≤ periods.length := by
  unfold SpansInBounds
  refine forall_congr' fun x => forall_congr' fun hx => ?_
  have hlt : x.1 < periods.length := by
    have := visited_lookup periods grid dayKey x hx
    exact (List.getElem?_eq_some.mp this).1
  have hcast := strideOf_cast grid dayKey x.2
  by_cases hb : x.2.isBreak.truthy = true
  · have : (cellOf grid dayKey x.2).width = 1 := by simp [cellOf, hb, Td.width]
    simp only [hb, Bool.true_eq_false, false_implies, true_iff]
    omega
  · by_cases hc : (grid dayKey x.2.key).truthy = true
    · have : (cellOf grid dayKey x.2).width = effectiveSpan (grid dayKey x.2.key) := by
        simp [cellOf, hb, hc, Td.width]
      have hb' : x.2.isBreak.truthy = false := by simpa using hb
      simp only [hb', hc, true_implies]
      constructor <;> intro h <;> omega
    · have : (cellOf grid dayKey x.2).width = 1 := by simp [cellOf, hb, hc, Td.width]
      simp only [hc, Bool.false_eq_true, false_implies, implies_true, true_iff]
      omega

/-! ## Theorems: the claims on the schedule row -/

/-- C3: the effective span of a grid Cell is `floor(cell.span)` when `cell.span` is a finite
number greater than 1, and 1 when it is a finite number of at most 1, `NaN`, an infinity, or
no number at all (absent included); it is the value of the source expression, and an
integer of at least 1. -/
theorem effectiveSpan_spec (cell : JSValue) :
    (∀ q : ℚ, cell.get "span" = JSValue.num (JSNum.finite q) → 1 < q →
      effectiveSpan cell = ⌊q⌋) ∧
    (∀ q : ℚ, cell.get "span" = JSValue.num (JSNum.finite q) → q ≤ 1 →
      effectiveSpan cell = 1) ∧
    (cell.get "span" = JSValue.num JSNum.nan → effectiveSpan cell = 1) ∧
    (cell.get "span" = JSValue.num JSNum.posInf → effectiveSpan cell = 1) ∧
    (cell.get "span" = JSValue.num JSNum.negInf → effectiveSpan cell = 1) ∧
    ((∀ x : JSNum, cell.get "span" ≠ JSValue.num x) → effectiveSpan cell = 1) ∧
    spanExpr cell = JSNum.finite (effectiveSpan cell) ∧
    1 ≤ effectiveSpan cell := by
  refine ⟨?_, ?_, ?_, ?_, ?_, ?_, spanExpr_eq_effectiveSpan cell, effectiveSpan_pos cell⟩
  · intro q hq h1
    simp [effectiveSpan, spanExpr, hq, Number.isFinite, JSNum.gt, Math.floor, JSNum.toInt, h1]
  · intro q hq h1
    simp [effectiveSpan, spanExpr, hq, Number.isFinite, JSNum.gt, JSNum.toInt, not_lt.mpr h1]
  · intro hq
    simp [effectiveSpan, spanExpr, hq, Number.isFinite, JSNum.toInt]
  · intro hq
    simp [effectiveSpan, spanExpr, hq, Number.isFinite, JSNum.toInt]
  · intro hq
    simp [effectiveSpan, spanExpr, hq, Number.isFinite, JSNum.toInt]
  · intro hq
    unfold effectiveSpan spanExpr
    split
    · rename_i x hx
      exact absurd hx (hq x)
    · simp [JSNum.toInt]

/-- C3, witness: a Cell with span 2.5 has the effective span 2, and one whose span is the
text `2` has the effective span 1. -/
theorem effectiveSpan_spec_witness :
    effectiveSpan (subjectCell "30204" "Lab 2" (5 / 2)) = ⌊(5 / 2 : ℚ)⌋ ∧
    ⌊(5 / 2 : ℚ)⌋ = 2 ∧
    effectiveSpan (JSValue.obj [("span", JSValue.str ['2'])]) = 1 :=
  ⟨(effectiveSpan_spec (subjectCell "30204" "Lab 2" (5 / 2))).1 (5 / 2) rfl (by norm_num),
    by rw [Int.floor_eq_iff]; norm_num,
    (effectiveSpan_spec (JSValue.obj [("span", JSValue.str ['2'])])).2.2.2.2.2.1
      (fun x h => by cases h)⟩

/-- C1 (amended): when every Cell the scan reaches ends within the period list, the row
`renderDayCells` returns has cells whose widths sum to exactly the number of periods. -/
theorem renderDayCells_width (periods : List Period) (grid : JSValue → JSValue → JSValue)
    (dayKey : JSValue) (h : SpansInBounds periods grid dayKey) :
    ∃ tds, renderDayCells periods grid dayKey = some tds ∧
      rowWidth tds = periods.length := by
  have heq := renderLoop_eq periods grid dayKey periods.length 0 [] (by omega)
  refine ⟨_, by rw [renderDayCells, heq]; rfl, ?_⟩
  have hsum := (exit_eq_length_iff periods grid dayKey periods.length 0 (by omega)
    (by omega)).mp ((spansInBounds_iff periods grid dayKey).mp h)
  rw [List.nil_append, rowWidth_map_cellOf]
  exact_mod_cast (by omega : ((visitedFrom periods grid dayKey periods.length 0).map
    (fun x => strideOf grid dayKey x.2)).sum = periods.length)

/-- C1, witness: the four-period scenario keeps its span within bounds, and its row is
4 columns wide. -/
theorem renderDayCells_width_witness :
    SpansInBounds scenarioPeriods scenarioGrid mon ∧
    ∃ tds, renderDayCells scenarioPeriods scenarioGrid mon = some tds ∧
      rowWidth tds = scenarioPeriods.length :=
  ⟨by decide, renderDayCells_width scenarioPeriods scenarioGrid mon (by decide)⟩

/-- C1, counterexample: one period holding a span-3 Cell gives a row of one cell of width 3,
not of width 1, the number of periods. -/
theorem renderDayCells_width_overrun :
    renderDayCells [period "P1" false] overrunGrid mon =
      some [Td.subject (JSValue.str ['P', '1']) 3 (JSValue.str "30204".toList)
        (JSValue.str "Lab 2".toList)] ∧
    rowWidth [Td.subject (JSValue.str ['P', '1']) 3 (JSValue.str "30204".toList)
        (JSValue.str "Lab 2".toList)] = 3 ∧
    ([period "P1" false].length : ℤ) = 1 ∧ (3 : ℤ) ≠ 1 := by
  refine ⟨rfl, rfl, rfl, by decide⟩

theorem visited_strictMono (periods : List Period) (grid : JSValue → JSValue → JSValue)
    (dayKey : JSValue) (k k' : Nat) (x y : Nat × Period)
    (hx : (visited periods grid dayKey)[k]? = some x)
    (hy : (visited periods grid dayKey)[k']? = some y) (hlt : k < k') :
    x.1 + strideOf grid dayKey x.2 ≤ y.1 := by
  obtain ⟨hk, rfl⟩ := List.getElem?_eq_some.mp hx
  obtain ⟨hk', rfl⟩ := List.getElem?_eq_some.mp hy
  exact List.pairwise_iff_getElem.mp
    (visitedFrom_pairwise periods grid dayKey periods.length 0) k k' hk hk' hlt

/-- C2: when the `k`-th iteration of the scan is at index `i`, on a non-break period `p`
whose grid Cell is present with effective span `s`, the row has one cell per iteration, its
`k`-th cell is the cell of width `s` with the Cell's code and room, no other iteration is at
index `i`, and every other iteration is at an index below `i` or at `i + s` or beyond: the
periods at `i+1 .. i+s-1` get no cell. -/
theorem renderDayCells_merged (periods : List Period) (grid : JSValue → JSValue → JSValue)
    (dayKey : JSValue) (k i : Nat) (p : Period)
    (hreach : (visited periods grid dayKey)[k]? = some (i, p))
    (hbreak : p.isBreak.truthy = false)
    (hcell : (grid dayKey p.key).truthy = true) :
    ∃ tds, renderDayCells periods grid dayKey = some tds ∧
      tds = (visited periods grid dayKey).map (fun x => cellOf grid dayKey x.2) ∧
      tds[k]? = some (Td.subject p.key (effectiveSpan (grid dayKey p.key))
        ((grid dayKey p.key).get "code") ((grid dayKey p.key).get "room")) ∧
      (∀ (k' : Nat) (y : Nat × Period), (visited periods grid dayKey)[k']? = some y →
        k' ≠ k → (y.1 < i ∨ (i : ℤ) + effectiveSpan (grid dayKey p.key) ≤ y.1)) := by
  have heq := renderLoop_eq periods grid dayKey periods.length 0 [] (by omega)
  have hcellOf : cellOf grid dayKey p = Td.subject p.key (effectiveSpan (grid dayKey p.key))
      ((grid dayKey p.key).get "code") ((grid dayKey p.key).get "room") := by
    simp [cellOf, hbreak, hcell]
  refine ⟨_, by rw [renderDayCells, heq]; rfl, by rw [List.nil_append]; rfl, ?_, ?_⟩
  · rw [List.nil_append]
    show (List.map (fun x => cellOf grid dayKey x.2) (visited periods grid dayKey))[k]? = _
    rw [List.getElem?_map, hreach]
    simp [hcellOf]
  · intro k' y hy hne
    have hstride : ((strideOf grid dayKey p : Nat) : ℤ) = effectiveSpan (grid dayKey p.key) := by
      rw [strideOf_cast, hcellOf]; rfl
    rcases Nat.lt_or_gt_of_ne hne with hlt | hgt
    · left
      have := visited_strictMono periods grid dayKey k' k y (i, p) hy hreach hlt
      have hs := strideOf_pos grid dayKey y.2
      simp only at this
      omega
    · right
      have := visited_strictMono periods grid dayKey k k' (i, p) y hreach hy hgt
      simp only at this
      omega

/-- C2, witness: in the scenario `[P1, BREAK, P2, P3]` with a span-2 Cell at `P2` the third
iteration is at `P2`, and the row is the empty cell of `P1`, the break cell, and the merged
cell of width 2 with the code and room of `P2`: 3 cells over 4 columns, none for `P3` although
the grid holds a Cell there. -/
theorem renderDayCells_merged_witness :
    renderDayCells scenarioPeriods scenarioGrid mon =
      some [Td.emptyCell (JSValue.str ['P', '1']),
        Td.breakCell (JSValue.str ['B', 'R', 'E', 'A', 'K']),
        Td.subject (JSValue.str ['P', '2']) 2 (JSValue.str "30204".toList)
          (JSValue.str "Lab 2".toList)] ∧
    (scenarioGrid mon (JSValue.str ['P', '3'])).truthy = true ∧
    ∃ tds, renderDayCells scenarioPeriods scenarioGrid mon = some tds ∧
      tds = (visited scenarioPeriods scenarioGrid mon).map
        (fun x => cellOf scenarioGrid mon x.2) ∧
      tds[2]? = some (Td.subject (period "P2" false).key
        (effectiveSpan (scenarioGrid mon (period "P2" false).key))
        ((scenarioGrid mon (period "P2" false).key).get "code")
        ((scenarioGrid mon (period "P2" false).key).get "room")) ∧
      (∀ (k' : Nat) (y : Nat × Period),
        (visited scenarioPeriods scenarioGrid mon)[k']? = some y → k' ≠ 2 →
        (y.1 < 2 ∨ (2 : ℤ) + effectiveSpan (scenarioGrid mon (period "P2" false).key) ≤ y.1)) :=
  ⟨rfl, rfl,
    renderDayCells_merged scenarioPeriods scenarioGrid mon 2 2 (period "P2" false) rfl rfl rfl⟩

/-! ## Theorems: asset URLs -/

theorem toLower_eq_slash (c : Char) : c.toLower = '/' ↔ c = '/' := by
  unfold Char.toLower
  simp only
  split_ifs with h
  · obtain ⟨h1, h2⟩ := h
    constructor
    · intro hc
      exfalso
      generalize c.toNat = n at h1 h2 hc
      interval_cases n <;> revert hc <;> decide
    · rintro rfl
      revert h1
      decide
  · rfl

theorem dropHeadIgnoreCase_append (pat more : JSString) : ∀ (s : JSString),
    dropHeadIgnoreCase (pat ++ more) s =
      (dropHeadIgnoreCase pat s).bind (dropHeadIgnoreCase more) := by
  induction pat with
  | nil => intro s; simp [dropHeadIgnoreCase]
  | cons a pat ih =>
    intro s
    cases s with
    | nil => simp [dropHeadIgnoreCase]
    | cons c s =>
      simp only [dropHeadIgnoreCase, List.cons_append]
      split_ifs with hc
      · exact ih s
      · rfl

theorem dropHead_slashes (s : JSString) :
    (dropHeadIgnoreCase ['/', '/'] s).isSome = startsWith s ['/', '/'] := by
  unfold startsWith
  match s with
  | [] => rfl
  | [c] =>
    by_cases h : c = '/'
    · simp [dropHeadIgnoreCase, List.isPrefixOf, toLower_eq_slash, h]
    · have h' : ¬ '/' = c := fun e => h e.symm
      simp [dropHeadIgnoreCase, List.isPrefixOf, toLower_eq_slash, h, h']
  | c :: d :: rest =>
    simp only [dropHeadIgnoreCase, List.isPrefixOf, toLower_eq_slash]
    by_cases h : c = '/'
    · by_cases h2 : d = '/'
      · simp [h, h2]
      · have h2' : ¬ '/' = d := fun e => h2 e.symm
        simp [h, h2, h2']
    · have h' : ¬ '/' = c := fun e => h e.symm
      simp [h, h']

/-- A text that starts with `http://` or `https://`, in any letter case, matches the
pattern of line 8. -/
theorem matchesUrlPattern_of_absolute (s : JSString) (h : isAbsoluteHttpUrl s = true) :
    matchesUrlPattern s = true := by
  unfold isAbsoluteHttpUrl at h
  unfold matchesUrlPattern
  have e1 : ['h', 't', 't', 'p', ':', '/', '/'] = ['h', 't', 't', 'p', ':'] ++ ['/', '/'] := rfl
  have e2 : ['h', 't', 't', 'p', 's', ':', '/', '/'] =
      ['h', 't', 't', 'p', 's', ':'] ++ ['/', '/'] := rfl
  rw [e1, e2, dropHeadIgnoreCase_append, dropHeadIgnoreCase_append, Bool.or_eq_true] at h
  rcases h with h | h
  · cases h5 : dropHeadIgnoreCase ['h', 't', 't', 'p', ':'] s with
    | none => simp [h5] at h
    | some rest =>
      rw [h5, Option.some_bind, dropHead_slashes] at h
      simp [h]
  · cases h5 : dropHeadIgnoreCase ['h', 't', 't', 'p', 's', ':'] s with
    | none => simp [h5] at h
    | some rest =>
      rw [h5, Option.some_bind, dropHead_slashes] at h
      simp [h]

/-- C5: an input that is absent (`undefined`, `null`) or empty, that is an absolute HTTP(S)
URL, that matches the pattern of line 8, or that starts with `data:` or `blob:`, is returned
unchanged under every configured base path. -/
theorem resolveAssetUrl_passthrough (configured url : UrlField)
    (h : url = UrlField.undefined ∨ url = UrlField.null ∨ url = UrlField.str [] ∨
      ∃ s, url = UrlField.str s ∧
        (isAbsoluteHttpUrl s = true ∨ matchesUrlPattern s = true ∨
          startsWith s ['d', 'a', 't', 'a', ':'] = true ∨
          startsWith s ['b', 'l', 'o', 'b', ':'] = true)) :
    resolveAssetUrl configured url = url := by
  rcases h with rfl | rfl | rfl | ⟨s, rfl, h⟩
  · rfl
  · rfl
  · rfl
  · by_cases ht : (UrlField.str s).truthy = true
    · rcases h with h | h | h | h
      · simp [resolveAssetUrl, ht, matchesUrlPattern_of_absolute s h]
      · simp [resolveAssetUrl, ht, h]
      · simp [resolveAssetUrl, ht, h]
      · simp [resolveAssetUrl, ht, h]
    · simp [resolveAssetUrl, ht]

/-- C5, witness: `https://x/y` and the empty string come back as given, here under the base
path `/app/`. -/
theorem resolveAssetUrl_passthrough_witness :
    resolveAssetUrl (UrlField.str "/app/".toList) (UrlField.str "https://x/y".toList) =
      UrlField.str "https://x/y".toList ∧
    resolveAssetUrl (UrlField.str "/app/".toList) (UrlField.str []) = UrlField.str [] :=
  ⟨resolveAssetUrl_passthrough _ _ (Or.inr (Or.inr (Or.inr ⟨_, rfl, Or.inl rfl⟩))),
    resolveAssetUrl_passthrough _ _ (Or.inr (Or.inr (Or.inl rfl)))⟩

/-- C4 (amended): a non-empty input that does not match the pattern of line 8 and does not
start with `data:` or `blob:` resolves to `b ++ r`, where `b` is the base path, with one `/`
appended only when it does not end with `/` already, and `r` is the input without its leading
`/`, if it has one. -/
theorem resolveAssetUrl_relative (configured : UrlField) (s : JSString)
    (hne : s ≠ []) (hpat : matchesUrlPattern s = false)
    (hdata : startsWith s ['d', 'a', 't', 'a', ':'] = false)
    (hblob : startsWith s ['b', 'l', 'o', 'b', ':'] = false) :
    ∃ b r, resolveAssetUrl configured (UrlField.str s) = UrlField.str (b ++ r) ∧
      (b = BASE_URL configured ∨ b = BASE_URL configured ++ ['/']) ∧
      (endsWith (BASE_URL configured) ['/'] = true → b = BASE_URL configured) ∧
      endsWith b ['/'] = true ∧
      (s = r ∨ s = '/' :: r) ∧ startsWith r ['/'] = false := by
  have htruthy : (UrlField.str s).truthy = true := by
    cases s with
    | nil => exact absurd rfl hne
    | cons c s => rfl
  have hslashes : startsWith s ['/', '/'] = false := by
    unfold matchesUrlPattern at hpat
    simp only [Bool.or_eq_false_iff] at hpat
    exact hpat.2
  have hbase : ∃ b, (if endsWith (BASE_URL configured) ['/'] = true then BASE_URL configured
        else BASE_URL configured ++ ['/']) = b ∧
      (b = BASE_URL configured ∨ b = BASE_URL configured ++ ['/']) ∧
      (endsWith (BASE_URL configured) ['/'] = true → b = BASE_URL configured) ∧
      endsWith b ['/'] = true := by
    by_cases he : endsWith (BASE_URL configured) ['/'] = true
    · exact ⟨BASE_URL configured, by simp [he], Or.inl rfl, fun _ => rfl, he⟩
    · exact ⟨BASE_URL configured ++ ['/'], by simp [he], Or.inr rfl, fun h => absurd h he,
        by simp [endsWith, List.isSuffixOf]⟩
  obtain ⟨b, hb, hb1, hb2, hb3⟩ := hbase
  unfold resolveAssetUrl
  simp only [htruthy, hpat, hdata, hblob, Bool.not_true, Bool.false_eq_true, if_false,
    Bool.or_false, hb]
  cases s with
  | nil => exact absurd rfl hne
  | cons c s =>
    by_cases hc : c = '/'
    · subst hc
      refine ⟨b, s, by simp [startsWith], hb1, hb2, hb3, Or.inr rfl, ?_⟩
      cases s with
      | nil => rfl
      | cons d s =>
        simp only [startsWith, List.isPrefixOf] at hslashes ⊢
        simpa using hslashes
    · have hc' : ¬ '/' = c := fun e => hc e.symm
      refine ⟨b, c :: s, by simp [startsWith, hc'], hb1, hb2, hb3, Or.inl rfl, ?_⟩
      simp [startsWith, List.isPrefixOf, hc']

/-- C4, witness: with the base path `/app/`, both `/img/a.png` and `img/a.png` resolve to
`/app/img/a.png`. -/
theorem resolveAssetUrl_relative_witness :
    resolveAssetUrl (UrlField.str "/app/".toList) (UrlField.str "/img/a.png".toList) =
      UrlField.str "/app/img/a.png".toList ∧
    resolveAssetUrl (UrlField.str "/app/".toList) (UrlField.str "img/a.png".toList) =
      UrlField.str "/app/img/a.png".toList ∧
    ∃ b r, resolveAssetUrl (UrlField.str "/app/".toList) (UrlField.str "/img/a.png".toList) =
        UrlField.str (b ++ r) ∧
      (b = BASE_URL (UrlField.str "/app/".toList) ∨
        b = BASE_URL (UrlField.str "/app/".toList) ++ ['/']) ∧
      (endsWith (BASE_URL (UrlField.str "/app/".toList)) ['/'] = true →
        b = BASE_URL (UrlField.str "/app/".toList)) ∧
      endsWith b ['/'] = true ∧
      ("/img/a.png".toList = r ∨ "/img/a.png".toList = '/' :: r) ∧
      startsWith r ['/'] = false :=
  ⟨rfl, rfl, resolveAssetUrl_relative (UrlField.str "/app/".toList) "/img/a.png".toList
    (by decide) rfl rfl rfl⟩

/-- C4, counterexample: under the base path `/app//` the relative input `img/a.png` resolves
to `/app//img/a.png`, the base kept with its two final `/`; and under `/app/` the input
`//cdn/a.png`, not empty, no absolute HTTP(S) URL and neither `data:` nor `blob:`, comes back
unchanged instead of `/app//cdn/a.png`. -/
theorem resolveAssetUrl_not_normalised :
    isAbsoluteHttpUrl "img/a.png".toList = false ∧
    resolveAssetUrl (UrlField.str "/app//".toList) (UrlField.str "img/a.png".toList) =
      UrlField.str "/app//img/a.png".toList ∧
    specResolve "/app//".toList "img/a.png".toList = "/app/img/a.png".toList ∧
    resolveAssetUrl (UrlField.str "/app//".toList) (UrlField.str "img/a.png".toList) ≠
      UrlField.str (specResolve "/app//".toList "img/a.png".toList) ∧
    isAbsoluteHttpUrl "//cdn/a.png".toList = false ∧
    startsWith "//cdn/a.png".toList ['d', 'a', 't', 'a', ':'] = false ∧
    startsWith "//cdn/a.png".toList ['b', 'l', 'o', 'b', ':'] = false ∧
    resolveAssetUrl (UrlField.str "/app/".toList) (UrlField.str "//cdn/a.png".toList) =
      UrlField.str "//cdn/a.png".toList ∧
    specResolve "/app/".toList "//cdn/a.png".toList = "/app//cdn/a.png".toList ∧
    resolveAssetUrl (UrlField.str "/app/".toList) (UrlField.str "//cdn/a.png".toList) ≠
      UrlField.str (specResolve "/app/".toList "//cdn/a.png".toList) := by
  refine ⟨rfl, rfl, rfl, by decide, rfl, rfl, rfl, rfl, rfl, by decide⟩

/-! ## Theorems: the carousel -/

theorem safeImages_truthy (images : JSValue) : ∀ x ∈ safeImages images, x.truthy = true := by
  intro x hx
  unfold safeImages at hx
  split at hx
  · exact (List.mem_filter.mp hx).2
  · simp at hx

theorem click_nonneg (images : JSValue) (i : ℤ) (button : NavButton) (h : 0 ≤ i) :
    0 ≤ Carousel.click images i button := by
  unfold Carousel.click
  split
  · rename_i heq
    have hlen : 1 < (safeImages images).length := by
      unfold Carousel at heq
      simp only at heq
      split_ifs at heq with h0
      simp only [CarouselView.slide.injEq, decide_eq_true_eq] at heq
      exact heq.2
    cases button with
    | backward => exact Int.tmod_nonneg _ (by omega)
    | forward => exact Int.tmod_nonneg _ (by omega)
  · exact h

theorem indexAfter_nonneg (images : JSValue) (clicks : List NavButton) :
    0 ≤ Carousel.indexAfter images clicks := by
  unfold Carousel.indexAfter
  suffices h : ∀ (i : ℤ), 0 ≤ i → 0 ≤ clicks.foldl (Carousel.click images) i from h 0 le_rfl
  induction clicks with
  | nil => intro i hi; simpa using hi
  | cons c cs ih =>
    intro i hi
    simp only [List.foldl_cons]
    exact ih _ (click_nonneg images i c hi)

theorem carousel_controls (images : JSValue) (i : ℤ)
    (h : 2 ≤ (safeImages images).length) :
    Carousel images i = CarouselView.slide
      (elemAt (safeImages images) (min i (((safeImages images).length : ℤ) - 1))) true := by
  unfold Carousel
  have h0 : ¬ (safeImages images).length = 0 := by omega
  have h1 : (safeImages images).length > 1 := by omega
  simp [h0, h1]

/-- C6: with two or more filtered images and an index `i` of at least 0 (so for every `i`
within `0 .. count - 1`), the buttons are rendered, the forward button sets the index to `(i + 1) mod count` and the
backward button to `(i - 1 + count) mod count`, both again within `0 .. count - 1`;
forward from `count - 1` gives 0 and backward from 0 gives `count - 1`. -/
theorem carousel_click (images : JSValue) (i : ℤ)
    (hcount : 2 ≤ (safeImages images).length)
    (h0 : 0 ≤ i) :
    (∃ current, Carousel images i = CarouselView.slide current true) ∧
    Carousel.click images i NavButton.forward = (i + 1) % ((safeImages images).length : ℤ) ∧
    Carousel.click images i NavButton.backward =
      (i - 1 + (safeImages images).length) % ((safeImages images).length : ℤ) ∧
    (0 ≤ Carousel.click images i NavButton.forward ∧
      Carousel.click images i NavButton.forward < (safeImages images).length) ∧
    (0 ≤ Carousel.click images i NavButton.backward ∧
      Carousel.click images i NavButton.backward < (safeImages images).length) ∧
    Carousel.click images ((safeImages images).length - 1) NavButton.forward = 0 ∧
    Carousel.click images 0 NavButton.backward = (safeImages images).length - 1 := by
  have hn : (2 : ℤ) ≤ ((safeImages images).length : ℤ) := by exact_mod_cast hcount
  have hclick : ∀ (j : ℤ) (b : NavButton), Carousel.click images j b =
      match b with
      | NavButton.backward => prevIndex (safeImages images).length j
      | NavButton.forward => nextIndex (safeImages images).length j := by
    intro j b
    unfold Carousel.click
    rw [carousel_controls images j hcount]
  have hf : Carousel.click images i NavButton.forward =
      (i + 1) % ((safeImages images).length : ℤ) := by
    rw [hclick]
    exact Int.tmod_eq_emod (by omega) (by omega)
  have hb : Carousel.click images i NavButton.backward =
      (i - 1 + (safeImages images).length) % ((safeImages images).length : ℤ) := by
    rw [hclick]
    exact Int.tmod_eq_emod (by omega) (by omega)
  have hpos : (0 : ℤ) < ((safeImages images).length : ℤ) := by omega
  refine ⟨⟨_, carousel_controls images i hcount⟩, hf, hb, ?_, ?_, ?_, ?_⟩
  · rw [hf]
    exact ⟨Int.emod_nonneg _ (by omega), Int.emod_lt_of_pos _ hpos⟩
  · rw [hb]
    exact ⟨Int.emod_nonneg _ (by omega), Int.emod_lt_of_pos _ hpos⟩
  · rw [hclick]
    show Int.tmod _ _ = 0
    rw [Int.tmod_eq_emod (by omega) (by omega)]
    simp
  · rw [hclick]
    show Int.tmod _ _ = _
    rw [Int.tmod_eq_emod (by omega) (by omega)]
    rw [show (0 : ℤ) - 1 + ((safeImages images).length : ℤ) =
      ((safeImages images).length : ℤ) - 1 by ring]
    exact Int.emod_eq_of_lt (by omega) (by omega)

/-- C6, witness: three images remain of the sample array; from the last index 2 the forward
button gives 0, from 0 the backward button gives 2. -/
theorem carousel_click_witness :
    (safeImages sampleImages).length = 3 ∧
    Carousel.click sampleImages 2 NavButton.forward = 0 ∧
    Carousel.click sampleImages 0 NavButton.backward = 2 ∧
    Carousel.click sampleImages 2 NavButton.backward = 1 ∧
    Carousel.click sampleImages 2 NavButton.forward =
      (2 + 1) % ((safeImages sampleImages).length : ℤ) :=
  ⟨rfl, rfl, rfl, rfl, (carousel_click sampleImages 2 (by decide) (by decide)).2.1⟩

/-! ## Theorems: the activity card -/

theorem expandedAfter_of_not_canExpand (activity : Activity) (h : canExpand activity = false)
    (n : Nat) : ActivityCard.expandedAfter activity n = false := by
  unfold ActivityCard.expandedAfter
  induction n with
  | zero => rfl
  | succ n ih =>
    rw [Function.iterate_succ_apply', ih]
    simp [ActivityCard.click, ActivityCard, h]

/-- C8: the card has the expand/collapse button exactly when the description is a string
of more than 220 characters or the highlights are a non-empty list; for a description of
fewer than 221 characters with no highlights there is no button, and the card is in the
collapsed view after any number of clicks. -/
theorem activityCard_toggle (activity : Activity) (expanded : Bool) :
    ((ActivityCard activity expanded).toggle = true ↔
      ((∃ s, activity.description = JSValue.str s ∧ 220 < s.length) ∨
        (∃ items, activity.highlights = JSValue.arr items ∧ items ≠ []))) ∧
    (∀ s, activity.description = JSValue.str s → s.length < 221 →
      (∀ items, activity.highlights = JSValue.arr items → items = []) →
      (ActivityCard activity expanded).toggle = false ∧
      ∀ n, ActivityCard.expandedAfter activity n = false ∧
        (ActivityCard activity (ActivityCard.expandedAfter activity n)).panelExpanded = false ∧
        (ActivityCard activity (ActivityCard.expandedAfter activity n)).highlightsShown = [])
    := by
  have hlong : hasLongDescription activity = true ↔
      ∃ s, activity.description = JSValue.str s ∧ 220 < s.length := by
    unfold hasLongDescription
    split
    · rename_i s hs
      simp [hs]
    · rename_i hns
      simp only [Bool.false_eq_true, false_iff]
      rintro ⟨s, hs, _⟩
      exact hns s hs
  have hhigh : hasHighlights activity = true ↔
      ∃ items, activity.highlights = JSValue.arr items ∧ items ≠ [] := by
    unfold hasHighlights
    split
    · rename_i items hi
      simp [hi, List.length_pos]
    · rename_i hni
      simp only [Bool.false_eq_true, false_iff]
      rintro ⟨items, hi, _⟩
      exact hni items hi
  have htoggle : (ActivityCard activity expanded).toggle = true ↔
      ((∃ s, activity.description = JSValue.str s ∧ 220 < s.length) ∨
        (∃ items, activity.highlights = JSValue.arr items ∧ items ≠ [])) := by
    show canExpand activity = true ↔ _
    unfold canExpand
    rw [Bool.or_eq_true, hlong, hhigh]
  refine ⟨htoggle, ?_⟩
  intro s hs hlen hno
  have hcan : canExpand activity = false := by
    have : ¬ ((ActivityCard activity expanded).toggle = true) := by
      rw [htoggle]
      rintro (⟨s', hs', hl⟩ | ⟨items, hi, hne⟩)
      · rw [hs] at hs'
        cases hs'
        omega
      · exact hne (hno items hi)
    simpa [ActivityCard] using this
  refine ⟨hcan, fun n => ?_⟩
  have hn := expandedAfter_of_not_canExpand activity hcan n
  refine ⟨hn, ?_, ?_⟩
  · rw [hn]; rfl
  · rw [hn]; rfl

/-! ## Theorems: the list guards -/

/-- C9, at the failing input: for a semester record without `lessonPlans`, the render of
`LessonPlans` raises a `TypeError`, whatever the render of an item is; the guarded lists of
`ScheduleTable`, `Carousel` and `ActivityCard` are empty on absent fields. -/
theorem lessonPlans_absent_throws {β : Type} (card : JSValue → Except JSError β) :
    semesterWithoutPlans.get "lessonPlans" = JSValue.undefined ∧
    LessonPlans card (semesterWithoutPlans.get "lessonPlans") =
      Except.error JSError.typeError ∧
    (scheduleLists (semesterWithoutPlans.get "schedule")).subjects = [] ∧
    (scheduleLists (semesterWithoutPlans.get "schedule")).periods = [] ∧
    (scheduleLists (semesterWithoutPlans.get "schedule")).days = [] ∧
    safeImages JSValue.undefined = [] ∧
    (ActivityCard ⟨JSValue.undefined, JSValue.undefined, JSValue.undefined⟩ true).highlightsShown
      = [] :=
  ⟨rfl, rfl, rfl, rfl, rfl, rfl, rfl⟩

/-! ## Theorems: break periods -/

theorem visitedFrom_head (periods : List Period) (grid : JSValue → JSValue → JSValue)
    (dayKey : JSValue) (fuel i : Nat) (h : periods.length ≤ i + fuel) :
    (visitedFrom periods grid dayKey fuel i)[0]? = (periods[i]?).map (fun q => (i, q)) := by
  cases fuel with
  | zero =>
    have : periods[i]? = none := List.getElem?_eq_none (by omega)
    simp [visitedFrom, this]
  | succ fuel =>
    cases hp : periods[i]? with
    | none => simp [visitedFrom, hp]
    | some p => simp [visitedFrom, hp]

/-- The iteration after the one at index `i` is at `i` plus the stride, if a period is there. -/
theorem visitedFrom_next (periods : List Period) (grid : JSValue → JSValue → JSValue)
    (dayKey : JSValue) (fuel : Nat) : ∀ (i0 k i : Nat) (p : Period),
    periods.length ≤ i0 + fuel →
    (visitedFrom periods grid dayKey fuel i0)[k]? = some (i, p) →
    (visitedFrom periods grid dayKey fuel i0)[k + 1]? =
      (periods[i + strideOf grid dayKey p]?).map (fun q => (i + strideOf grid dayKey p, q)) := by
  induction fuel with
  | zero => intro i0 k i p _ hk; simp [visitedFrom] at hk
  | succ fuel ih =>
    intro i0 k i p hfuel hk
    cases hp : periods[i0]? with
    | none => simp [visitedFrom, hp] at hk
    | some p0 =>
      have hs := strideOf_pos grid dayKey p0
      simp only [visitedFrom, hp] at hk ⊢
      cases k with
      | zero =>
        simp only [List.getElem?_cons_zero, Option.some.injEq, Prod.mk.injEq] at hk
        obtain ⟨rfl, rfl⟩ := hk
        rw [List.getElem?_cons_succ]
        exact visitedFrom_head periods grid dayKey fuel _ (by omega)
      | succ k =>
        rw [List.getElem?_cons_succ] at hk ⊢
        exact ih _ k i p (by omega) hk

/-- C11: when the `k`-th iteration of the scan is at index `i`, on a period `p` marked as a
break, then for every grid the `k`-th cell of the row is the empty break cell, of width 1,
and the next iteration is at index `i + 1` when a period is there (there is none otherwise):
what the grid holds under the key of `p` is not read. -/
theorem renderDayCells_break (periods : List Period) (grid : JSValue → JSValue → JSValue)
    (dayKey : JSValue) (k i : Nat) (p : Period)
    (hreach : (visited periods grid dayKey)[k]? = some (i, p))
    (hbreak : p.isBreak.truthy = true) :
    ∃ tds, renderDayCells periods grid dayKey = some tds ∧
      tds[k]? = some (Td.breakCell p.key) ∧
      (tds[k]?).map Td.width = some 1 ∧
      (visited periods grid dayKey)[k + 1]? = (periods[i + 1]?).map (fun q => (i + 1, q)) ∧
      (∀ other : JSValue → JSValue → JSValue,
        cellOf other dayKey p = Td.breakCell p.key ∧ strideOf other dayKey p = 1) := by
  have heq := renderLoop_eq periods grid dayKey periods.length 0 [] (by omega)
  have hcell : ∀ other : JSValue → JSValue → JSValue,
      cellOf other dayKey p = Td.breakCell p.key ∧ strideOf other dayKey p = 1 := by
    intro other
    have hc : cellOf other dayKey p = Td.breakCell p.key := by simp [cellOf, hbreak]
    exact ⟨hc, by simp [strideOf, hc, Td.width]⟩
  have hk : (List.map (fun x => cellOf grid dayKey x.2) (visited periods grid dayKey))[k]? =
      some (Td.breakCell p.key) := by
    rw [List.getElem?_map, hreach]
    simp [(hcell grid).1]
  refine ⟨_, by rw [renderDayCells, heq]; rfl, ?_, ?_, ?_, hcell⟩
  · rw [List.nil_append]
    exact hk
  · rw [List.nil_append]
    show ((List.map (fun x => cellOf grid dayKey x.2) (visited periods grid dayKey))[k]?).map
      Td.width = _
    rw [hk]
    rfl
  · have := visitedFrom_next periods grid dayKey periods.length 0 k i p (by omega) hreach
    rw [(hcell grid).2] at this
    exact this

/-- C11, witness: in `[P1, BREAK, P2, P3]` with a span-3 Cell stored under `BREAK`, the second
iteration is at the break; the row has four cells of width 1, the break cell second, and
the third iteration is at `P2`. -/
theorem renderDayCells_break_witness :
    (breakGrid mon (JSValue.str ['B', 'R', 'E', 'A', 'K'])).truthy = true ∧
    effectiveSpan (breakGrid mon (JSValue.str ['B', 'R', 'E', 'A', 'K'])) = 3 ∧
    renderDayCells scenarioPeriods breakGrid mon =
      some [Td.emptyCell (JSValue.str ['P', '1']),
        Td.breakCell (JSValue.str ['B', 'R', 'E', 'A', 'K']),
        Td.emptyCell (JSValue.str ['P', '2']), Td.emptyCell (JSValue.str ['P', '3'])] ∧
    ∃ tds, renderDayCells scenarioPeriods breakGrid mon = some tds ∧
      tds[1]? = some (Td.breakCell (period "BREAK" true).key) ∧
      (tds[1]?).map Td.width = some 1 ∧
      (visited scenarioPeriods breakGrid mon)[1 + 1]? =
        (scenarioPeriods[1 + 1]?).map (fun q => (1 + 1, q)) ∧
      (∀ other : JSValue → JSValue → JSValue,
        cellOf other mon (period "BREAK" true) = Td.breakCell (period "BREAK" true).key ∧
        strideOf other mon (period "BREAK" true) = 1) :=
  ⟨rfl, rfl, rfl,
    renderDayCells_break scenarioPeriods breakGrid mon 1 1 (period "BREAK" true) rfl rfl⟩

/-! ## Theorems: the two buttons as inverse updates -/

theorem click_forward_emod (images : JSValue) (j : ℤ)
    (hcount : 2 ≤ (safeImages images).length) (h0 : 0 ≤ j) :
    Carousel.click images j NavButton.forward = (j + 1) % ((safeImages images).length : ℤ) := by
  unfold Carousel.click
  rw [carousel_controls images j hcount]
  exact Int.tmod_eq_emod (by omega) (by omega)

theorem click_backward_emod (images : JSValue) (j : ℤ)
    (hcount : 2 ≤ (safeImages images).length) (h0 : 0 ≤ j) :
    Carousel.click images j NavButton.backward =
      (j - 1 + (safeImages images).length) % ((safeImages images).length : ℤ) := by
  unfold Carousel.click
  rw [carousel_controls images j hcount]
  exact Int.tmod_eq_emod (by omega) (by omega)

theorem click_forward_iterate (images : JSValue) (i : ℤ)
    (hcount : 2 ≤ (safeImages images).length) (h0 : 0 ≤ i) (k : Nat) :
    (fun j => Carousel.click images j NavButton.forward)^[k + 1] i =
      (i + (k + 1 : Nat)) % ((safeImages images).length : ℤ) := by
  have hne : ((safeImages images).length : ℤ) ≠ 0 := by omega
  induction k with
  | zero => simpa using click_forward_emod images i hcount h0
  | succ k ih =>
    rw [Function.iterate_succ_apply', ih,
      click_forward_emod images _ hcount (Int.emod_nonneg _ hne), Int.emod_add_emod]
    congr 1
    push_cast
    ring

/-- C12: with two or more filtered images and the index `i` within `0 .. count - 1`, the
backward button undoes the forward button, the forward button undoes the backward button,
and `count` clicks on the forward button lead back to `i`. -/
theorem carousel_click_inverse (images : JSValue) (i : ℤ)
    (hcount : 2 ≤ (safeImages images).length)
    (h0 : 0 ≤ i) (hlt : i < (safeImages images).length) :
    Carousel.click images (Carousel.click images i NavButton.forward) NavButton.backward = i ∧
    Carousel.click images (Carousel.click images i NavButton.backward) NavButton.forward = i ∧
    (fun j => Carousel.click images j NavButton.forward)^[(safeImages images).length] i = i := by
  have hne : ((safeImages images).length : ℤ) ≠ 0 := by omega
  refine ⟨?_, ?_, ?_⟩
  · rw [click_forward_emod images i hcount h0,
      click_backward_emod images _ hcount (Int.emod_nonneg _ hne),
      Int.add_comm _ ((safeImages images).length : ℤ),
      Int.add_comm ((safeImages images).length : ℤ), Int.add_emod_self, sub_eq_add_neg,
      Int.emod_add_emod]
    simpa using Int.emod_eq_of_lt h0 hlt
  · rw [click_backward_emod images i hcount h0,
      click_forward_emod images _ hcount (Int.emod_nonneg _ hne), Int.emod_add_emod,
      show i - 1 + ((safeImages images).length : ℤ) + 1 =
        i + ((safeImages images).length : ℤ) by ring, Int.add_emod_self]
    exact Int.emod_eq_of_lt h0 hlt
  · obtain ⟨m, hm⟩ : ∃ m, (safeImages images).length = m + 1 := ⟨_, (Nat.succ_pred_eq_of_pos
      (by omega)).symm⟩
    have := click_forward_iterate images i hcount h0 m
    rw [← hm] at this
    rw [this, Int.add_emod_self]
    exact Int.emod_eq_of_lt h0 hlt

/-- C12, witness: three images remain of the sample array; from index 2, forward then
backward, backward then forward, and three clicks forward all lead back to 2. -/
theorem carousel_click_inverse_witness :
    Carousel.click sampleImages 2 NavButton.forward = 0 ∧
    Carousel.click sampleImages 2 NavButton.backward = 1 ∧
    Carousel.click sampleImages (Carousel.click sampleImages 2 NavButton.forward)
      NavButton.backward = 2 ∧
    Carousel.click sampleImages (Carousel.click sampleImages 2 NavButton.backward)
      NavButton.forward = 2 ∧
    (fun j => Carousel.click sampleImages j NavButton.forward)^[(safeImages sampleImages).length]
      2 = 2 :=
  ⟨rfl, rfl, carousel_click_inverse sampleImages 2 (by decide) (by decide) (by decide)⟩

/-! ## Theorems: the loop index as a JavaScript number -/

theorem excessBits_of_lt (fuel n : Nat) (h : n < 2 ^ 53) : excessBits fuel n = 0 := by
  cases fuel with
  | zero => rfl
  | succ fuel =>
    show (if n < 2 ^ 53 then 0 else excessBits fuel (n / 2) + 1) = 0
    rw [if_pos h]

/-- Integers up to `2 ^ 53` are doubles. -/
theorem roundToDouble_of_le (n : Nat) (h : n ≤ 2 ^ 53) : roundToDouble n = n := by
  rcases Nat.lt_or_ge n (2 ^ 53) with hlt | hge
  · unfold roundToDouble
    simp only [excessBits_of_lt n n hlt, pow_zero, Nat.mod_one, Nat.div_one, Nat.mul_zero,
      Nat.mul_one]
    rw [if_neg (by omega)]
  · have : n = 2 ^ 53 := le_antisymm h hge
    subst this
    decide

theorem div_excessBits_ge (fuel : Nat) : ∀ n : Nat, 2 ^ 52 ≤ n →
    2 ^ 52 ≤ n / 2 ^ excessBits fuel n := by
  induction fuel with
  | zero => intro n h; simpa [excessBits] using h
  | succ fuel ih =>
    intro n h
    by_cases hlt : n < 2 ^ 53
    · rw [excessBits_of_lt _ n hlt]
      simpa using h
    · have h2 : 2 ^ 52 ≤ n / 2 := by omega
      have := ih (n / 2) h2
      have he : excessBits (fuel + 1) n = excessBits fuel (n / 2) + 1 := by
        show (if n < 2 ^ 53 then 0 else excessBits fuel (n / 2) + 1) = _
        rw [if_neg hlt]
      have hp : 2 ^ (excessBits fuel (n / 2) + 1) = 2 * 2 ^ excessBits fuel (n / 2) := by
        rw [pow_succ, Nat.mul_comm]
      rw [he, hp, ← Nat.div_div_eq_div_mul]
      exact this

/-- Rounding does not take an integer from `2 ^ 53` on below `2 ^ 53`. -/
theorem le_roundToDouble (n : Nat) (h : 2 ^ 53 ≤ n) : 2 ^ 53 ≤ roundToDouble n := by
  have hq := div_excessBits_ge n n (by omega)
  have hlow : 2 ^ 53 ≤ n / 2 ^ excessBits n n * 2 ^ excessBits n n := by
    rcases Nat.eq_zero_or_pos (excessBits n n) with h0 | hpos
    · simpa [h0] using h
    · have h2 : 2 ≤ 2 ^ excessBits n n := by
        calc 2 = 2 ^ 1 := rfl
          _ ≤ 2 ^ excessBits n n := Nat.pow_le_pow_right (by omega) hpos
      calc 2 ^ 53 = 2 ^ 52 * 2 := by norm_num
        _ ≤ n / 2 ^ excessBits n n * 2 ^ excessBits n n := Nat.mul_le_mul hq h2
  unfold roundToDouble
  simp only
  split_ifs
  · exact le_trans hlow (Nat.mul_le_mul_right _ (Nat.le_succ _))
  · exact hlow

theorem advanceNum_of_le (i s : Nat) (hs : 1 ≤ s) (h : i + s ≤ 2 ^ 53) :
    advanceNum i s = i + s := by
  unfold advanceNum numAdd
  by_cases h1 : s > 1
  · simp only [h1, if_true]
    rw [roundToDouble_of_le (s - 1) (by omega), roundToDouble_of_le (i + (s - 1)) (by omega),
      roundToDouble_of_le _ (by omega)]
    omega
  · simp only [h1, if_false]
    rw [roundToDouble_of_le _ (by omega)]
    omega

theorem le_advanceNum (i s : Nat) (hs : 1 ≤ s) (h : 2 ^ 53 < i + s) :
    2 ^ 53 ≤ advanceNum i s := by
  unfold advanceNum numAdd
  have h1 : s > 1 ∨ (s = 1 ∧ 2 ^ 53 ≤ i) := by omega
  rcases h1 with h1 | ⟨h1, hi⟩
  · simp only [h1, if_true]
    apply le_roundToDouble
    have : 2 ^ 53 ≤ roundToDouble (i + roundToDouble (s - 1)) := by
      apply le_roundToDouble
      rcases Nat.lt_or_ge (s - 1) (2 ^ 53) with hlt | hge
      · rw [roundToDouble_of_le _ hlt.le]; omega
      · have := le_roundToDouble _ hge; omega
    omega
  · subst h1
    simp only [gt_iff_lt, lt_self_iff_false, if_false]
    apply le_roundToDouble
    omega

theorem renderLoopNum_succ (periods : List Period) (grid : JSValue → JSValue → JSValue)
    (dayKey : JSValue) (fuel i : Nat) (tds : List Td) :
    renderLoopNum periods grid dayKey (fuel + 1) i tds =
      match periods[i]? with
      | none => some (tds, i)
      | some p => renderLoopNum periods grid dayKey fuel
          (advanceNum i (strideOf grid dayKey p)) (tds ++ [cellOf grid dayKey p]) := by
  rw [renderLoopNum]
  cases hp : periods[i]? with
  | none => rfl
  | some p =>
    simp only
    have hs := effectiveSpan_pos (grid dayKey p.key)
    by_cases hb : p.isBreak.truthy = true
    · simp [hb, strideOf, cellOf, Td.width, advanceNum]
    · by_cases hc : (grid dayKey p.key).truthy = true
      · simp only [hb, hc, strideOf, cellOf, Td.width, advanceNum]
        simp only [Bool.false_eq_true, if_false, Bool.not_true]
        by_cases h1 : effectiveSpan (grid dayKey p.key) > 1
        · have h1' : (effectiveSpan (grid dayKey p.key)).toNat > 1 := by omega
          have h2 : (effectiveSpan (grid dayKey p.key) - 1).toNat =
              (effectiveSpan (grid dayKey p.key)).toNat - 1 := by omega
          simp only [h1, h1', if_true, h2]
        · have h1' : ¬ (effectiveSpan (grid dayKey p.key)).toNat > 1 := by omega
          simp only [h1, h1', if_false]
      · simp [hb, hc, strideOf, cellOf, Td.width, advanceNum]

theorem visitedFrom_of_le (periods : List Period) (grid : JSValue → JSValue → JSValue)
    (dayKey : JSValue) (fuel i : Nat) (h : periods.length ≤ i) :
    visitedFrom periods grid dayKey fuel i = [] := by
  have hp : periods[i]? = none := List.getElem?_eq_none h
  cases fuel with
  | zero => rfl
  | succ fuel => simp [visitedFrom, hp]

theorem renderLoopNum_of_le (periods : List Period) (grid : JSValue → JSValue → JSValue)
    (dayKey : JSValue) (fuel i : Nat) (tds : List Td) (h : periods.length ≤ i) :
    renderLoopNum periods grid dayKey fuel i tds = some (tds, i) := by
  have hp : periods[i]? = none := List.getElem?_eq_none h
  cases fuel with
  | zero =>
    have : ¬ i < periods.length := by omega
    simp [renderLoopNum, this]
  | succ fuel => rw [renderLoopNum_succ, hp]

/-- The loop with the index as a JavaScript number pushes the cells of `renderLoop`; its
exit index is the exact one up to `2 ^ 53`, and is at least `2 ^ 53` beyond. -/
theorem renderLoopNum_eq (periods : List Period) (grid : JSValue → JSValue → JSValue)
    (dayKey : JSValue) (hlen : periods.length ≤ 2 ^ 53) (fuel : Nat) :
    ∀ (i : Nat) (tds : List Td), periods.length ≤ i + fuel →
    ∃ d, renderLoopNum periods grid dayKey fuel i tds =
        some (tds ++ (visitedFrom periods grid dayKey fuel i).map
          (fun x => cellOf grid dayKey x.2), d) ∧
      (i + ((visitedFrom periods grid dayKey fuel i).map
          (fun x => strideOf grid dayKey x.2)).sum ≤ 2 ^ 53 →
        d = i + ((visitedFrom periods grid dayKey fuel i).map
          (fun x => strideOf grid dayKey x.2)).sum) ∧
      (2 ^ 53 < i + ((visitedFrom periods grid dayKey fuel i).map
          (fun x => strideOf grid dayKey x.2)).sum → 2 ^ 53 ≤ d) := by
  induction fuel with
  | zero =>
    intro i tds h
    refine ⟨i, ?_, ?_, ?_⟩
    · rw [renderLoopNum_of_le periods grid dayKey 0 i tds (by omega)]
      simp [visitedFrom]
    · intro _; simp [visitedFrom]
    · intro h2; simp only [visitedFrom, List.map_nil, List.sum_nil] at h2; omega
  | succ fuel ih =>
    intro i tds h
    cases hp : periods[i]? with
    | none =>
      have hi : periods.length ≤ i := by simpa using hp
      refine ⟨i, ?_, ?_, ?_⟩
      · rw [renderLoopNum_of_le periods grid dayKey _ i tds hi]
        simp [visitedFrom, hp]
      · intro _; simp [visitedFrom, hp]
      · intro h2; simp only [visitedFrom, hp, List.map_nil, List.sum_nil] at h2; omega
    | some p =>
      have hs := strideOf_pos grid dayKey p
      rw [renderLoopNum_succ, hp]
      simp only [visitedFrom, hp, List.map_cons, List.sum_cons]
      rcases Nat.lt_or_ge (2 ^ 53) (i + strideOf grid dayKey p) with hbig | hsmall
      · have hadv := le_advanceNum i (strideOf grid dayKey p) hs hbig
        have hnil := visitedFrom_of_le periods grid dayKey fuel
          (i + strideOf grid dayKey p) (by omega)
        refine ⟨advanceNum i (strideOf grid dayKey p), ?_, ?_, ?_⟩
        · rw [renderLoopNum_of_le periods grid dayKey fuel _ _ (by omega), hnil]
          simp
        · intro hle
          rw [hnil] at hle
          simp only [List.map_nil, List.sum_nil] at hle
          omega
        · intro _; exact hadv
      · rw [advanceNum_of_le i _ hs hsmall]
        obtain ⟨d, hd, hexact, hbeyond⟩ := ih (i + strideOf grid dayKey p)
          (tds ++ [cellOf grid dayKey p]) (by omega)
        refine ⟨d, ?_, ?_, ?_⟩
        · rw [hd]; simp
        · intro hle; rw [hexact (by omega)]; omega
        · intro hgt; exact hbeyond (by omega)

/-- C10 (amended): for a period array (fewer than `2 ^ 32` entries), `renderDayCells` returns
a row and the loop ends with its index at least the number of periods; the index at exit
equals the number of periods exactly when every Cell the scan reaches ends within the period
list, and then the widths sum to the number of periods; a Cell is rendered with its whole
effective span wherever it is reached, in bounds or not; and the widths sum to the index
at exit as long as the sum is at most `2 ^ 53`, the range in which the index, a JavaScript
number, counts exactly (beyond it the index at exit is at least `2 ^ 53`). -/
theorem renderDayCells_cursor (periods : List Period) (grid : JSValue → JSValue → JSValue)
    (dayKey : JSValue) (hlen : periods.length < 2 ^ 32) :
    ∃ tds cursor, renderLoopNum periods grid dayKey periods.length 0 [] = some (tds, cursor) ∧
      renderDayCells periods grid dayKey = some tds ∧
      periods.length ≤ cursor ∧
      (rowWidth tds ≤ 2 ^ 53 → rowWidth tds = cursor) ∧
      (2 ^ 53 < rowWidth tds → 2 ^ 53 ≤ cursor) ∧
      (SpansInBounds periods grid dayKey ↔ cursor = periods.length) ∧
      (SpansInBounds periods grid dayKey → rowWidth tds = periods.length) ∧
      (∀ (k : Nat) (x : Nat × Period), (visited periods grid dayKey)[k]? = some x →
        x.2.isBreak.truthy = false → (grid dayKey x.2.key).truthy = true →
        (tds[k]?).map Td.width = some (effectiveSpan (grid dayKey x.2.key))) := by
  have hlen53 : periods.length ≤ 2 ^ 53 := by
    have : (2 : Nat) ^ 32 ≤ 2 ^ 53 := Nat.pow_le_pow_right (by omega) (by omega)
    omega
  have heq := renderLoop_eq periods grid dayKey periods.length 0 [] (by omega)
  have hiff := exit_eq_length_iff periods grid dayKey periods.length 0 (by omega) (by omega)
  have hge := length_le_exit periods grid dayKey periods.length 0 (by omega)
  obtain ⟨d, hd, hexact, hbeyond⟩ :=
    renderLoopNum_eq periods grid dayKey hlen53 periods.length 0 [] (by omega)
  have hwidth : rowWidth ([] ++ (visitedFrom periods grid dayKey periods.length 0).map
      (fun x => cellOf grid dayKey x.2)) =
      ((0 + ((visitedFrom periods grid dayKey periods.length 0).map
        (fun x => strideOf grid dayKey x.2)).sum : Nat) : ℤ) := by
    rw [List.nil_append, rowWidth_map_cellOf, Nat.zero_add]
  generalize hE : 0 + ((visitedFrom periods grid dayKey periods.length 0).map
      (fun x => strideOf grid dayKey x.2)).sum = E at heq hiff hge hexact hbeyond hwidth
  have hcases : (E ≤ 2 ^ 53 ∧ d = E) ∨ (2 ^ 53 < E ∧ 2 ^ 53 ≤ d) := by
    rcases Nat.lt_or_ge (2 ^ 53) E with h | h
    · exact Or.inr ⟨h, hbeyond h⟩
    · exact Or.inl ⟨h, hexact h⟩
  refine ⟨_, d, hd, by rw [renderDayCells, heq]; rfl, ?_, ?_, ?_, ?_, ?_, ?_⟩
  · rcases hcases with ⟨_, rfl⟩ | ⟨_, h2⟩
    · exact hge
    · omega
  · intro hw
    rw [hwidth] at hw ⊢
    have hw' : E ≤ 2 ^ 53 := by exact_mod_cast hw
    rw [hexact hw']
  · intro hw
    rw [hwidth] at hw
    have hw' : 2 ^ 53 < E := by exact_mod_cast hw
    exact hbeyond hw'
  · rw [spansInBounds_iff]
    show (∀ x ∈ visitedFrom periods grid dayKey periods.length 0, _) ↔ _
    rw [hiff]
    rcases hcases with ⟨_, rfl⟩ | ⟨h1, h2⟩
    · rfl
    · constructor <;> intro h <;> omega
  · intro h
    have hEq : E = periods.length := hiff.mp ((spansInBounds_iff periods grid dayKey).mp h)
    rw [hwidth, hEq]
  · intro k x hx hb hc
    rw [List.nil_append]
    show ((List.map (fun x => cellOf grid dayKey x.2) (visited periods grid dayKey))[k]?).map
      Td.width = _
    rw [List.getElem?_map, hx]
    simp [cellOf, hb, hc, Td.width]

/-- C10, witness: the four-period scenario is a period array; its loop ends with the index
at 4, the number of periods and the sum of the widths. -/
theorem renderDayCells_cursor_witness :
    renderLoopNum scenarioPeriods scenarioGrid mon scenarioPeriods.length 0 [] =
      some ([Td.emptyCell (JSValue.str ['P', '1']),
        Td.breakCell (JSValue.str ['B', 'R', 'E', 'A', 'K']),
        Td.subject (JSValue.str ['P', '2']) 2 (JSValue.str "30204".toList)
          (JSValue.str "Lab 2".toList)], 4) ∧
    ∃ tds cursor, renderLoopNum scenarioPeriods scenarioGrid mon scenarioPeriods.length 0 [] =
        some (tds, cursor) ∧
      renderDayCells scenarioPeriods scenarioGrid mon = some tds ∧
      scenarioPeriods.length ≤ cursor ∧
      (rowWidth tds ≤ 2 ^ 53 → rowWidth tds = cursor) ∧
      (2 ^ 53 < rowWidth tds → 2 ^ 53 ≤ cursor) ∧
      (SpansInBounds scenarioPeriods scenarioGrid mon ↔ cursor = scenarioPeriods.length) ∧
      (SpansInBounds scenarioPeriods scenarioGrid mon →
        rowWidth tds = scenarioPeriods.length) ∧
      (∀ (k : Nat) (x : Nat × Period),
        (visited scenarioPeriods scenarioGrid mon)[k]? = some x →
        x.2.isBreak.truthy = false → (scenarioGrid mon x.2.key).truthy = true →
        (tds[k]?).map Td.width = some (effectiveSpan (scenarioGrid mon x.2.key))) :=
  ⟨rfl, renderDayCells_cursor scenarioPeriods scenarioGrid mon (by decide)⟩

/-- C10, counterexample: with the periods `[P1, P2]` and a Cell of span `2 ^ 53` at `P2`, the
row is the empty cell of `P1` and a cell of width `2 ^ 53`, of total width `2 ^ 53 + 1`,
while the loop ends with its index at `2 ^ 53`: `i += 1` on `2 ^ 53` leaves it as it is. -/
theorem renderDayCells_cursor_rounded :
    renderLoopNum [period "P1" false, period "P2" false] hugeGrid mon 2 0 [] =
      some ([Td.emptyCell (JSValue.str ['P', '1']),
        Td.subject (JSValue.str ['P', '2']) 9007199254740992 (JSValue.str "30204".toList)
          (JSValue.str "Lab 2".toList)], 9007199254740992) ∧
    renderDayCells [period "P1" false, period "P2" false] hugeGrid mon =
      some [Td.emptyCell (JSValue.str ['P', '1']),
        Td.subject (JSValue.str ['P', '2']) 9007199254740992 (JSValue.str "30204".toList)
          (JSValue.str "Lab 2".toList)] ∧
    rowWidth [Td.emptyCell (JSValue.str ['P', '1']),
        Td.subject (JSValue.str ['P', '2']) 9007199254740992 (JSValue.str "30204".toList)
          (JSValue.str "Lab 2".toList)] = 9007199254740993 ∧
    numAdd 9007199254740992 1 = 9007199254740992 ∧
    (9007199254740993 : ℤ) ≠ 9007199254740992 := by
  refine ⟨rfl, rfl, rfl, rfl, by decide⟩

/-! ## Theorems: the whole render of the carousel -/

theorem indexThrough_nonneg (history : List (JSValue × NavButton)) :
    0 ≤ Carousel.indexThrough history := by
  unfold Carousel.indexThrough
  suffices h : ∀ (i : ℤ), 0 ≤ i →
      0 ≤ history.foldl (fun i step => Carousel.click step.1 i step.2) i from h 0 le_rfl
  induction history with
  | nil => intro i hi; simpa using hi
  | cons step rest ih =>
    intro i hi
    simp only [List.foldl_cons]
    exact ih _ (click_nonneg step.1 i step.2 hi)

/-- A string never makes `resolveAssetUrl` raise. -/
theorem resolveAssetUrlAny_str (configured : UrlField) (s : JSString) :
    resolveAssetUrlAny configured (JSValue.str s) =
      Except.ok (resolveAssetUrl configured (UrlField.str s)).toValue := by
  cases s with
  | nil => rfl
  | cons c s => rfl

/-- The entry `Carousel` selects is at position `min(index, count - 1)` of the filtered list,
and the render is the image of that entry, or the exception its resolution raises. -/
theorem carousel_render_selected (configured : UrlField) (images : JSValue) (index : ℤ)
    (hidx : 0 ≤ index) (hne : safeImages images ≠ []) :
    ∃ (k : Nat) (hk : k < (safeImages images).length),
      (k : ℤ) = min index (((safeImages images).length : ℤ) - 1) ∧
      (∀ src, resolveAssetUrlAny configured ((safeImages images).get ⟨k, hk⟩) = Except.ok src →
        Carousel.render configured images index = Except.ok (CarouselRender.slide
          ((safeImages images).get ⟨k, hk⟩) src (decide ((safeImages images).length > 1)))) ∧
      (∀ e, resolveAssetUrlAny configured ((safeImages images).get ⟨k, hk⟩) = Except.error e →
        Carousel.render configured images index = Except.error e) := by
  have hpos : 0 < (safeImages images).length := List.length_pos.mpr hne
  have hmin : 0 ≤ min index (((safeImages images).length : ℤ) - 1) := le_min hidx (by omega)
  have hlt : (min index (((safeImages images).length : ℤ) - 1)).toNat <
      (safeImages images).length := by
    have := min_le_right index (((safeImages images).length : ℤ) - 1)
    omega
  have h0 : ¬ (safeImages images).length = 0 := by omega
  have hcur : elemAt (safeImages images) (min index (((safeImages images).length : ℤ) - 1)) =
      (safeImages images).get ⟨_, hlt⟩ := by
    simp only [elemAt, hmin, if_true]
    rw [List.getD_eq_getElem _ _ hlt]
    rfl
  refine ⟨_, hlt, by omega, ?_, ?_⟩
  · intro src hsrc
    unfold Carousel.render
    simp only [h0, if_false, hcur, hsrc]
  · intro e he
    unfold Carousel.render
    simp only [h0, if_false, hcur, he]

/-- C7 (amended): the `images` input is filtered first, keeping in order the entries that
are truthy (so dropping `null`, `undefined` and the empty string, keeping every other
string), an input that is no array giving the empty list.  After any series of clicks,
under whatever `images` each was made: with no entry left the placeholder is rendered,
without buttons; otherwise the entry selected is the one at position
`min(index, count - 1)`, a position of the list, and the render is its image, with its
source from `resolveAssetUrl` and with the buttons exactly when two or more entries are
left, unless resolving the entry raises, which no string does. -/
theorem carousel_render_full (configured : UrlField) (images : JSValue)
    (history : List (JSValue × NavButton)) :
    (∀ items, images = JSValue.arr items →
      safeImages images = items.filter JSValue.truthy) ∧
    ((∀ items, images ≠ JSValue.arr items) → safeImages images = []) ∧
    (JSValue.null.truthy = false ∧ JSValue.undefined.truthy = false ∧
      (JSValue.str []).truthy = false ∧ ∀ s : JSString, s ≠ [] → (JSValue.str s).truthy = true) ∧
    (safeImages images = [] →
      Carousel.render configured images (Carousel.indexThrough history) =
        Except.ok CarouselRender.placeholder) ∧
    (safeImages images ≠ [] →
      ∃ (k : Nat) (hk : k < (safeImages images).length),
        (k : ℤ) = min (Carousel.indexThrough history) (((safeImages images).length : ℤ) - 1) ∧
        (∀ src,
          resolveAssetUrlAny configured ((safeImages images).get ⟨k, hk⟩) = Except.ok src →
          Carousel.render configured images (Carousel.indexThrough history) =
            Except.ok (CarouselRender.slide ((safeImages images).get ⟨k, hk⟩) src
              (decide ((safeImages images).length > 1)))) ∧
        (∀ e,
          resolveAssetUrlAny configured ((safeImages images).get ⟨k, hk⟩) = Except.error e →
          Carousel.render configured images (Carousel.indexThrough history) =
            Except.error e)) ∧
    (∀ s : JSString, resolveAssetUrlAny configured (JSValue.str s) =
      Except.ok (resolveAssetUrl configured (UrlField.str s)).toValue) ∧
    (∀ s : JSString, safeImages images = [JSValue.str s] →
      Carousel.render configured images (Carousel.indexThrough history) =
        Except.ok (CarouselRender.slide (JSValue.str s)
          (resolveAssetUrl configured (UrlField.str s)).toValue false)) ∧
    (2 ≤ (safeImages images).length → ∀ current src controls,
      Carousel.render configured images (Carousel.indexThrough history) =
        Except.ok (CarouselRender.slide current src controls) → controls = true) := by
  have hidx := indexThrough_nonneg history
  refine ⟨?_, ?_, ⟨rfl, rfl, rfl, ?_⟩, ?_,
    carousel_render_selected configured images _ hidx, resolveAssetUrlAny_str configured, ?_, ?_⟩
  · rintro items rfl
    rfl
  · intro h
    unfold safeImages
    split
    · rename_i items
      exact absurd rfl (h items)
    · rfl
  · intro s hs
    cases s with
    | nil => exact absurd rfl hs
    | cons c s => rfl
  · intro h
    simp [Carousel.render, h]
  · intro s h
    obtain ⟨k, hk, _, hok, _⟩ :=
      carousel_render_selected configured images _ hidx (by simp [h])
    have hk0 : k = 0 := by
      have : (safeImages images).length = 1 := by simp [h]
      omega
    subst hk0
    have hget : (safeImages images).get ⟨0, hk⟩ = JSValue.str s := by simp [h]
    have := hok _ (by rw [hget]; exact resolveAssetUrlAny_str configured s)
    rw [this, hget]
    simp [h]
  · intro h current src controls hr
    obtain ⟨k, hk, _, hok, herr⟩ :=
      carousel_render_selected configured images _ hidx
        (by intro hnil; simp [hnil] at h)
    cases hres : resolveAssetUrlAny configured ((safeImages images).get ⟨k, hk⟩) with
    | error e => rw [herr e hres] at hr; cases hr
    | ok v =>
      rw [hok v hres] at hr
      have hgt : (safeImages images).length > 1 := by omega
      simp only [Except.ok.injEq, CarouselRender.slide.injEq] at hr
      rw [← hr.2.2]
      simp [hgt]

/-- C7, witness: two clicks forward on the three images of the sample array bring the index
to 2; the array then shrinks to two images, the entry shown is at position
`min(2, 1) = 1`, and its image is rendered with the buttons; an array of one image path is
rendered without buttons. -/
theorem carousel_render_full_witness :
    Carousel.indexThrough [(sampleImages, NavButton.forward), (sampleImages, NavButton.forward)]
      = 2 ∧
    safeImages shortImages = [JSValue.str "a.jpg".toList, JSValue.str "b.jpg".toList] ∧
    Carousel.render (UrlField.str "/app/".toList) shortImages
      (Carousel.indexThrough [(sampleImages, NavButton.forward), (sampleImages, NavButton.forward)])
      = Except.ok (CarouselRender.slide (JSValue.str "b.jpg".toList)
        (JSValue.str "/app/b.jpg".toList) true) ∧
    Carousel.render (UrlField.str "/app/".toList)
      (JSValue.arr [JSValue.null, JSValue.str "a.jpg".toList, JSValue.str []])
      (Carousel.indexThrough [(sampleImages, NavButton.forward), (sampleImages, NavButton.forward)])
      = Except.ok (CarouselRender.slide (JSValue.str "a.jpg".toList)
        (resolveAssetUrl (UrlField.str "/app/".toList) (UrlField.str "a.jpg".toList)).toValue
        false) :=
  ⟨rfl, rfl, rfl,
    (carousel_render_full (UrlField.str "/app/".toList)
      (JSValue.arr [JSValue.null, JSValue.str "a.jpg".toList, JSValue.str []])
      [(sampleImages, NavButton.forward), (sampleImages, NavButton.forward)]).2.2.2.2.2.2.1
      "a.jpg".toList rfl⟩

/-- C7, counterexample: of the `images` array `[5]` exactly one entry remains, the number 5,
and the render raises a `TypeError` at `url.startsWith` instead of showing an image. -/
theorem carousel_render_number_throws :
    safeImages (JSValue.arr [JSValue.num (JSNum.finite 5)]) = [JSValue.num (JSNum.finite 5)] ∧
    Carousel.render (UrlField.str "/app/".toList) (JSValue.arr [JSValue.num (JSNum.finite 5)])
      (Carousel.indexThrough []) = Except.error JSError.typeError :=
  ⟨rfl, rfl⟩

end App
